import Mathlib

/-!
Verification of the Simon-Says game core in `Core/Src/main.cpp`.

The game logic is shallowly embedded: the pseudo-random generator
(`std::mt19937` plus `std::uniform_int_distribution<uint32_t>(0, 3)`), the
button scan `GetPressedButtonIndex`, and the five cases of the main `switch`
become Lean functions.  Machine integers are `Nat` with explicit `% 2^32`
where overflow matters.  The blocking busy-wait loops of `PLAYER_SAYS` are
modelled over a poll trace `btn : Nat → Nat → Bool` (`btn t i` is whether
button `i` reads pressed, i.e. `HAL_GPIO_ReadPin == 0`, at the `t`-th read),
with an explicit fuel bound on the number of polls; exhausting the fuel gives
`none`, which corresponds to the loop still spinning.  LED writes and delays
are recorded as an ordered list of `Act` events emitted by each handler.
-/

namespace Simon

/-- `MAX_LEVEL = 5`, the number of levels. -/
def MAX_LEVEL : Nat := 5

/-- `GAME_SPEED_MS = 500`, demonstration / confirmation pulse duration. -/
def GAME_SPEED_MS : Nat := 500

/-- `ERROR_BLINK_MS = 200`, loss-animation blink period. -/
def ERROR_BLINK_MS : Nat := 200

/-- `WIN_ANIMATION_MS = 100`, win-animation step duration. -/
def WIN_ANIMATION_MS : Nat := 100

/-- `BUTTON_COUNT = 4`. -/
def BUTTON_COUNT : Nat := 4

/-- `LED_COUNT = 4`. -/
def LED_COUNT : Nat := 4

/-- `2 ^ 32`, the modulus of the 32-bit arithmetic used by `std::mt19937`. -/
def U32 : Nat := 4294967296

/-- State of the `std::mt19937` engine declared at line 20 of `main.cpp`:
624 32-bit words plus the position of the next word to read. -/
structure MTState where
  mt : List Nat
  idx : Nat
deriving DecidableEq

/-- Seeding recurrence of `std::mt19937`:
`mt[i] = (1812433253 * (mt[i-1] xor (mt[i-1] >> 30)) + i) mod 2^32`,
building `mt[i], mt[i+1], ...` for `k` further words. -/
def mtInitAux (prev i : Nat) : Nat → List Nat
  | 0 => []
  | k+1 =>
    let v := (1812433253 * (prev ^^^ (prev >>> 30)) + i) % U32
    v :: mtInitAux v (i+1) k

/-- `generator.seed(value)`: `mt[0] = value mod 2^32`, the rest by the
seeding recurrence; the read position is set past the end so that the first
draw twists. -/
def mtSeed (s : Nat) : MTState :=
  ⟨(s % U32) :: mtInitAux (s % U32) 1 623, 624⟩

/-- In-place twist of the mt19937 state, `k` positions remaining starting
at index `i`.  Reads of already-updated cells (indices `(i+1) % 624` and
`(i+397) % 624`) see the new values, as in the sequential C++ loop. -/
def twistAux (mt : List Nat) (i : Nat) : Nat → List Nat
  | 0 => mt
  | k+1 =>
    let y := (Nat.land (mt.getD i 0) 2147483648) ||| (Nat.land (mt.getD ((i+1) % 624) 0) 2147483647)
    let v := (mt.getD ((i + 397) % 624) 0) ^^^ (y >>> 1) ^^^ (if y % 2 = 1 then 2567483615 else 0)
    twistAux (mt.set i v) (i+1) k

/-- Regenerate all 624 words of the mt19937 state. -/
def twist (mt : List Nat) : List Nat := twistAux mt 0 624

/-- mt19937 tempering. -/
def temper (x : Nat) : Nat :=
  let y1 := x ^^^ (x >>> 11)
  let y2 := y1 ^^^ (Nat.land (y1 <<< 7) 2636928640)
  let y3 := y2 ^^^ (Nat.land (y2 <<< 15) 4022730752)
  y3 ^^^ (y3 >>> 18)

/-- `generator()`: one draw from the engine, twisting first when the read
position is past the end. -/
def mtNext (g : MTState) : Nat × MTState :=
  if g.idx ≥ 624 then
    let mt2 := twist g.mt
    (temper (mt2.getD 0 0), ⟨mt2, 1⟩)
  else
    (temper (g.mt.getD g.idx 0), ⟨g.mt, g.idx + 1⟩)

/-- `distrib(generator)` for `std::uniform_int_distribution<uint32_t>(0, 3)`
(line 21 of `main.cpp`), as the downscale-with-rejection algorithm used for a
32-bit engine: `scaling = (2^32 - 1) / 4 = 1073741823`,
`past = 4 * scaling = 4294967292`; draws are rejected while `≥ past`, an
accepted draw yields `draw / scaling`.  `fuel` bounds the rejection retries;
`none` means the bound was exhausted. -/
def distribNext : Nat → MTState → Option (Nat × MTState)
  | 0, _ => none
  | fuel+1, g =>
    let p := mtNext g
    if p.1 < 4294967292 then some (p.1 / 1073741823, p.2) else distribNext fuel p.2

/-- Loop body of `GetPressedButtonIndex`: scan buttons starting at index `i`
with `k` iterations remaining.  `btns u = true` means the read of button `u`
returns 0 (pressed, active-low). -/
def scanAux (btns : Nat → Bool) (i : Nat) : Nat → Int
  | 0 => -1
  | k+1 => if btns i then (i : Int) else scanAux btns (i+1) k

/-- `GetPressedButtonIndex` (lines 45-52): first pressed button index in
ascending order, `-1` when none is pressed. -/
def GetPressedButtonIndex (btns : Nat → Bool) : Int := scanAux btns 0 BUTTON_COUNT

/-- Observable hardware actions performed by the game logic: setting one LED,
resetting one LED, toggling the mask of all four LEDs, a blocking delay, and
the blocking wait for release of one button. -/
inductive Act
  | ledOn (i : Nat)
  | ledOff (i : Nat)
  | toggleAll
  | delayMs (ms : Nat)
  | awaitRelease (i : Nat)
deriving DecidableEq

/-- Loop of `ToggleLEDsForGameOver`, `k` iterations remaining: each iteration
toggles the combined mask of all four LED pins and delays. -/
def gameOverAux : Nat → List Act
  | 0 => []
  | k+1 => Act.toggleAll :: Act.delayMs ERROR_BLINK_MS :: gameOverAux k

/-- `ToggleLEDsForGameOver` (lines 57-63): four all-LED toggles. -/
def ToggleLEDsForGameOver : List Act := gameOverAux 4

/-- Inner loop of `RunningLightForWin`: LED `i` on, delay, LED `i` off, for
`k` ascending indices starting at `i`. -/
def runInnerAux : Nat → Nat → List Act
  | _, 0 => []
  | i, k+1 => Act.ledOn i :: Act.delayMs WIN_ANIMATION_MS :: Act.ledOff i :: runInnerAux (i+1) k

/-- Outer loop of `RunningLightForWin`, `j` repetitions remaining. -/
def runOuterAux : Nat → List Act
  | 0 => []
  | j+1 => runInnerAux 0 LED_COUNT ++ runOuterAux j

/-- `RunningLightForWin` (lines 68-76). -/
def RunningLightForWin : List Act := runOuterAux 4

/-- Demonstration playback loop of the `SIMON_SAYS` case (lines 112-118):
for `k` positions starting at `i`, LED `sequence[i]` on, delay, off, delay. -/
def demoAux (seq : List Nat) : Nat → Nat → List Act
  | _, 0 => []
  | i, k+1 =>
    Act.ledOn (seq.getD i 0) :: Act.delayMs GAME_SPEED_MS ::
    Act.ledOff (seq.getD i 0) :: Act.delayMs GAME_SPEED_MS :: demoAux seq (i+1) k

/-- Actions of the whole demonstration playback `for (i = 0; i <= lvl; ++i)`. -/
def demoActs (seq : List Nat) (lvl : Nat) : List Act := demoAux seq 0 (lvl + 1)

/-- The `GameState` enumeration (lines 30-36). -/
inductive GameState
  | IDLE
  | SIMON_SAYS
  | PLAYER_SAYS
  | GAME_OVER
  | WIN
deriving DecidableEq

/-- The mutable program state of the game: the `state` variable of `main`,
the globals `current_level` and `sequence`, and the generator state. -/
structure Machine where
  state : GameState
  current_level : Nat
  sequence : List Nat
  gen : MTState
deriving DecidableEq

/-- `while (HAL_GPIO_ReadPin(GPIOB, button_pins[index]) == 0) {}` (line 133):
spin while button `i` reads pressed; when the read at poll `u` sees it
released, the loop exits and the next poll is `u + 1`. -/
def waitRelease (btn : Nat → Nat → Bool) (i t : Nat) : Nat → Option Nat
  | 0 => none
  | fuel+1 => if btn t i then waitRelease btn i (t+1) fuel else some (t+1)

/-- The actions lines 130-137 perform for one accepted press of button `i`:
LED on, delay, wait for release, LED off, delay. -/
def pulseActs (i : Nat) : List Act :=
  [Act.ledOn i, Act.delayMs GAME_SPEED_MS, Act.awaitRelease i,
   Act.ledOff i, Act.delayMs GAME_SPEED_MS]

/-- The inner `while (!flag)` loop (lines 125-149) for one expected position
`e`: poll until a button is pressed, confirm it with an LED pulse, wait for
its release, compare with `e`.  Returns the comparison result, the next poll
index, and the emitted actions. -/
def positionLoop (btn : Nat → Nat → Bool) (e t : Nat) : Nat → Option (Bool × Nat × List Act)
  | 0 => none
  | fuel+1 =>
    let idx := GetPressedButtonIndex (btn t)
    if 0 ≤ idx then
      match waitRelease btn idx.toNat (t+1) fuel with
      | none => none
      | some u => some (decide (idx.toNat = e), u, pulseActs idx.toNat)
    else positionLoop btn e (t+1) fuel

/-- The outer `for (i = 0; i <= current_level; ++i)` loop of `PLAYER_SAYS`
(lines 123-154) over the list of expected values, with the early `break` on a
mismatch.  The Bool is whether `state` is still `PLAYER_SAYS` at the end. -/
def roundLoop (btn : Nat → Nat → Bool) : List Nat → Nat → Nat → Option (Bool × Nat × List Act)
  | [], t, _ => some (true, t, [])
  | e :: rest, t, fuel =>
    match positionLoop btn e t fuel with
    | none => none
    | some (ok, t1, evs) =>
      if ok then
        match roundLoop btn rest t1 fuel with
        | none => none
        | some (ok2, t2, evs2) => some (ok2, t2, evs ++ evs2)
      else some (false, t1, evs)

/-- Observer of the poll trace: the first accepted press from poll `t` on —
the first-found pressed button, held through its observed release — together
with the poll index after the release. -/
def pressOne (btn : Nat → Nat → Bool) (t : Nat) : Nat → Option (Nat × Nat)
  | 0 => none
  | fuel+1 =>
    let idx := GetPressedButtonIndex (btn t)
    if 0 ≤ idx then
      match waitRelease btn idx.toNat (t+1) fuel with
      | none => none
      | some u => some (idx.toNat, u)
    else pressOne btn (t+1) fuel

/-- Observer of the poll trace: the first `n` accepted presses from poll `t`
on, with the poll index after the last release. -/
def pressList (btn : Nat → Nat → Bool) (t fuel : Nat) : Nat → Option (List Nat × Nat)
  | 0 => some ([], t)
  | n+1 =>
    match pressOne btn t fuel with
    | none => none
    | some (i, t1) =>
      match pressList btn t1 fuel n with
      | none => none
      | some (l, t2) => some (i :: l, t2)

/-- The `PLAYER_SAYS` case (lines 122-165): run the verification loop over
`sequence[0..current_level]`, then either win, advance a level, or lose. -/
def playerStep (btn : Nat → Nat → Bool) (t fuel : Nat) (m : Machine) :
    Option (Machine × Nat × List Act) :=
  match roundLoop btn (m.sequence.take (m.current_level + 1)) t fuel with
  | none => none
  | some (ok, t1, evs) =>
    if ok then
      if m.current_level = MAX_LEVEL - 1 then
        some ({ m with state := GameState.WIN }, t1, evs)
      else
        some ({ m with current_level := m.current_level + 1,
                       state := GameState.SIMON_SAYS }, t1, evs)
    else some ({ m with state := GameState.GAME_OVER }, t1, evs)

/-- The `SIMON_SAYS` case (lines 108-119): draw one fresh index into
`sequence[current_level]`, play back the whole prefix, end in `PLAYER_SAYS`
(the assignment inside the loop runs at least once since the loop bound is
`i <= current_level`). -/
def simonStep (fuel : Nat) (m : Machine) : Option (Machine × List Act) :=
  match distribNext fuel m.gen with
  | none => none
  | some (v, g2) =>
    let seq2 := m.sequence.set m.current_level v
    some ({ m with sequence := seq2, gen := g2, state := GameState.PLAYER_SAYS },
          demoActs seq2 m.current_level)

/-- The environment of one iteration of the main `while (1)` loop: the Start
pin trace, the `HAL_GetTick` value at each poll, and the button trace. -/
structure Env where
  start : Nat → Bool
  tick : Nat → Nat
  btn : Nat → Nat → Bool

/-- One iteration of the main `while (1)` loop (lines 96-178), dispatching on
`state`.  Returns the new machine, the next poll index, and the emitted
actions. -/
def step (e : Env) (fuel t : Nat) (m : Machine) : Option (Machine × Nat × List Act) :=
  match m.state with
  | GameState.IDLE =>
    if e.start t then
      some ({ m with gen := mtSeed (e.tick t), current_level := 0,
                     state := GameState.SIMON_SAYS }, t+1, [])
    else some (m, t+1, [])
  | GameState.SIMON_SAYS => (simonStep fuel m).map (fun p => (p.1, t, p.2))
  | GameState.PLAYER_SAYS => playerStep e.btn t fuel m
  | GameState.GAME_OVER =>
    some ({ m with state := GameState.IDLE }, t, ToggleLEDsForGameOver)
  | GameState.WIN =>
    some ({ m with state := GameState.IDLE }, t, RunningLightForWin)

/-- The program state at entry to the main loop: `state = IDLE`, the globals
`current_level` and `sequence` zero-initialized, the generator
default-constructed (`std::mt19937` default seed 5489). -/
def initMachine : Machine :=
  ⟨GameState.IDLE, 0, List.replicate MAX_LEVEL 0, mtSeed 5489⟩

/-- Machines reachable from the initial state by iterations of the main loop,
under arbitrary environments and fuel. -/
inductive Reachable : Machine → Prop
  | init : Reachable initMachine
  | step : ∀ {m : Machine} (e : Env) (fuel t : Nat) {m' : Machine} {t' : Nat}
      {evs : List Act}, Reachable m → step e fuel t m = some (m', t', evs) →
      Reachable m'

/-- All four LEDs inactive (the reset state configured at startup). -/
def allOff : List Bool := [false, false, false, false]

/-- Effect of one action on the four LED output states. -/
def applyAct (leds : List Bool) : Act → List Bool
  | Act.ledOn i => leds.set i true
  | Act.ledOff i => leds.set i false
  | Act.toggleAll => leds.map not
  | Act.delayMs _ => leds
  | Act.awaitRelease _ => leds

/-- Effect of a list of actions on the LED output states, in order. -/
def applyActs (leds : List Bool) (acts : List Act) : List Bool :=
  acts.foldl applyAct leds

/-- Number of simultaneously active LEDs. -/
def activeCount (leds : List Bool) : Nat := leds.count true

/-- An action only touches LEDs with index below `LED_COUNT` (trivially true
for the non-LED actions). -/
def actLedOK : Act → Prop
  | Act.ledOn i => i < LED_COUNT
  | Act.ledOff i => i < LED_COUNT
  | Act.toggleAll => True
  | Act.delayMs _ => True
  | Act.awaitRelease _ => True

/-- The state invariant of the game loop: the sequence buffer has its
declared capacity, `current_level` is a valid index into it, and every
already-generated entry of the prefix is a valid signal index. -/
def Inv (m : Machine) : Prop :=
  m.sequence.length = MAX_LEVEL ∧ m.current_level < MAX_LEVEL ∧
  (m.state = GameState.PLAYER_SAYS → ∀ i, i ≤ m.current_level → m.sequence.getD i 0 < 4) ∧
  (m.state = GameState.SIMON_SAYS → ∀ i, i < m.current_level → m.sequence.getD i 0 < 4)

/-! ## Generator lemmas -/

/-- An accepted draw of the downscaled distribution is below 4. -/
theorem distribNext_lt : ∀ (fuel : Nat) (g : MTState) (v : Nat) (g2 : MTState),
    distribNext fuel g = some (v, g2) → v < 4 := by
  intro fuel
  induction fuel with
  | zero => intro g v g2 h; simp [distribNext] at h
  | succ n ih =>
    intro g v g2 h
    simp only [distribNext] at h
    split at h
    · rename_i hlt
      simp only [Option.some.injEq, Prod.mk.injEq] at h
      rw [← h.1, Nat.div_lt_iff_lt_mul (by norm_num)]
      omega
    · exact ih _ _ _ h

/-! ## Button-scan lemmas -/

/-- Characterization of the scan loop: starting at `i` with `k` buttons left,
either no button in the window is pressed and the result is `-1`, or the
result is the first pressed index in the window. -/
theorem scanAux_spec (btns : Nat → Bool) : ∀ (k i : Nat),
    (scanAux btns i k = -1 ∧ ∀ j, i ≤ j → j < i + k → btns j = false) ∨
    (∃ j : Nat, scanAux btns i k = (j : Int) ∧ i ≤ j ∧ j < i + k ∧ btns j = true ∧
      ∀ l, i ≤ l → l < j → btns l = false) := by
  intro k
  induction k with
  | zero => intro i; exact Or.inl ⟨rfl, fun j h1 h2 => absurd h2 (by omega)⟩
  | succ n ih =>
    intro i
    by_cases hb : btns i
    · right
      refine ⟨i, ?_, le_refl i, by omega, hb, fun l h1 h2 => absurd h1 (by omega)⟩
      simp [scanAux, hb]
    · rcases ih (i+1) with ⟨h1, h2⟩ | ⟨j, h1, h2, h3, h4, h5⟩
      · left
        constructor
        · simp [scanAux, hb, h1]
        · intro j hj1 hj2
          rcases Nat.eq_or_lt_of_le hj1 with h | h
          · rw [← h]; simpa using hb
          · exact h2 j h (by omega)
      · right
        refine ⟨j, ?_, by omega, by omega, h4, ?_⟩
        · simp [scanAux, hb, h1]
        · intro l hl1 hl2
          rcases Nat.eq_or_lt_of_le hl1 with h | h
          · rw [← h]; simpa using hb
          · exact h5 l h hl2

/-- The scan result is `-1` or a pressed-button index below `BUTTON_COUNT`;
`-1` exactly when no button is pressed, and a nonnegative result is the
smallest pressed index. -/
theorem GetPressedButtonIndex_spec (btns : Nat → Bool) :
    (GetPressedButtonIndex btns = -1 ∧ ∀ j, j < 4 → btns j = false) ∨
    (∃ j : Nat, GetPressedButtonIndex btns = (j : Int) ∧ j < 4 ∧ btns j = true ∧
      ∀ l, l < j → btns l = false) := by
  rcases scanAux_spec btns 4 0 with ⟨h1, h2⟩ | ⟨j, h1, h2, h3, h4, h5⟩
  · exact Or.inl ⟨h1, fun j hj => h2 j (Nat.zero_le j) (by omega)⟩
  · exact Or.inr ⟨j, h1, by omega, h4, fun l hl => h5 l (Nat.zero_le l) hl⟩

/-- The scan never returns a value below `-1` or above `3`. -/
theorem GetPressedButtonIndex_range (btns : Nat → Bool) :
    -1 ≤ GetPressedButtonIndex btns ∧ GetPressedButtonIndex btns < 4 := by
  rcases GetPressedButtonIndex_spec btns with ⟨h1, _⟩ | ⟨j, h1, h2, _, _⟩
  · rw [h1]; constructor <;> norm_num
  · rw [h1]
    constructor
    · exact le_trans (by norm_num) (Int.natCast_nonneg j)
    · exact_mod_cast h2

/-- A nonnegative scan result, converted back to `Nat`, is the smallest
pressed index, and it is below 4. -/
theorem GetPressedButtonIndex_nonneg (btns : Nat → Bool)
    (h : 0 ≤ GetPressedButtonIndex btns) :
    (GetPressedButtonIndex btns).toNat < 4 ∧
    btns (GetPressedButtonIndex btns).toNat = true ∧
    ∀ l, l < (GetPressedButtonIndex btns).toNat → btns l = false := by
  rcases GetPressedButtonIndex_spec btns with ⟨h1, _⟩ | ⟨j, h1, h2, h3, h4⟩
  · rw [h1] at h; norm_num at h
  · rw [h1]
    simpa using ⟨h2, h3, h4⟩

/-- C5: every value the generator's draw returns lies in `[0, 3]`
(`0 ≤ index < SIGNAL_COUNT` with `SIGNAL_COUNT = 4`; `≥ 0` holds since the
value is a `Nat`), and hence every element written into `sequence` by the
`SIMON_SAYS` handler is such a value, for every generator state. -/
theorem C5_generator_range :
    (∀ (fuel : Nat) (g : MTState) (v : Nat) (g2 : MTState),
      distribNext fuel g = some (v, g2) → v < 4) ∧
    (∀ (fuel : Nat) (m m2 : Machine) (evs : List Act),
      simonStep fuel m = some (m2, evs) →
      ∃ v, v < 4 ∧ m2.sequence = m.sequence.set m.current_level v) := by
  constructor
  · exact distribNext_lt
  · intro fuel m m2 evs h
    unfold simonStep at h
    cases hd : distribNext fuel m.gen with
    | none => rw [hd] at h; simp at h
    | some p =>
      rw [hd] at h
      simp only [Option.some.injEq, Prod.mk.injEq] at h
      exact ⟨p.1, distribNext_lt fuel m.gen p.1 p.2 (by rw [hd]), by rw [← h.1]⟩

/-- Witness for C5 at a concrete generator state and a concrete machine. -/
theorem C5_generator_range_witness :
    (0 : Nat) < 4 ∧
    ∃ v, v < 4 ∧
      (Machine.mk GameState.PLAYER_SAYS 0 [0, 9, 9, 9, 9] ⟨[7], 1⟩).sequence =
        ([9, 9, 9, 9, 9] : List Nat).set 0 v :=
  ⟨C5_generator_range.1 1 ⟨[7], 0⟩ 0 ⟨[7], 1⟩ (by decide),
   C5_generator_range.2 1 ⟨GameState.SIMON_SAYS, 0, [9, 9, 9, 9, 9], ⟨[7], 0⟩⟩
     ⟨GameState.PLAYER_SAYS, 0, [0, 9, 9, 9, 9], ⟨[7], 1⟩⟩
     (demoActs [0, 9, 9, 9, 9] 0) (by decide)⟩

/-- C7: the input scan proceeds in fixed ascending index order: when no
button is active the result is `-1`, and otherwise the result is the
smallest active index — so with several buttons active in the same polling
iteration, the smallest index is the pressed input. -/
theorem C7_scan_ascending :
    (∀ btns : Nat → Bool, (∀ j, j < 4 → btns j = false) →
      GetPressedButtonIndex btns = -1) ∧
    (∀ (btns : Nat → Bool) (j : Nat), j < 4 → btns j = true →
      (∀ l, l < j → btns l = false) → GetPressedButtonIndex btns = (j : Int)) := by
  constructor
  · intro btns hall
    rcases GetPressedButtonIndex_spec btns with ⟨h1, _⟩ | ⟨j, _, h2, h3, _⟩
    · exact h1
    · rw [hall j h2] at h3; exact absurd h3 (by simp)
  · intro btns j hj hbj hmin
    rcases GetPressedButtonIndex_spec btns with ⟨_, hall⟩ | ⟨j2, h1, h2, h3, h4⟩
    · rw [hall j hj] at hbj; exact absurd hbj (by simp)
    · have : j2 = j := by
        rcases Nat.lt_trichotomy j2 j with h | h | h
        · rw [hmin j2 h] at h3; exact absurd h3 (by simp)
        · exact h
        · rw [h4 j h] at hbj; exact absurd hbj (by simp)
      rw [h1, this]

/-- Witness for C7: no button active, and buttons 1 and 3 active together
with the scan returning 1. -/
theorem C7_scan_ascending_witness :
    GetPressedButtonIndex (fun _ => false) = -1 ∧
    GetPressedButtonIndex (fun b => b == 1 || b == 3) = (1 : Nat) :=
  ⟨C7_scan_ascending.1 (fun _ => false) (fun _ _ => rfl),
   C7_scan_ascending.2 (fun b => b == 1 || b == 3) 1 (by norm_num) rfl
     (fun l hl => by rw [Nat.lt_one_iff] at hl; subst hl; rfl)⟩

/-! ## Wait-for-release and press lemmas -/

/-- When the release wait terminates with next poll `u`, the button was read
pressed at every poll before `u - 1` and read released at `u - 1`. -/
theorem waitRelease_some (btn : Nat → Nat → Bool) (i : Nat) :
    ∀ (fuel t u : Nat), waitRelease btn i t fuel = some u →
      t < u ∧ btn (u - 1) i = false ∧ ∀ w, t ≤ w → w < u - 1 → btn w i = true := by
  intro fuel
  induction fuel with
  | zero => intro t u h; simp [waitRelease] at h
  | succ n ih =>
    intro t u h
    simp only [waitRelease] at h
    by_cases hb : btn t i
    · rw [if_pos hb] at h
      obtain ⟨h1, h2, h3⟩ := ih (t+1) u h
      refine ⟨by omega, h2, ?_⟩
      intro w hw1 hw2
      rcases Nat.eq_or_lt_of_le hw1 with h | h
      · rw [← h]; exact hb
      · exact h3 w h hw2
    · rw [if_neg hb] at h
      injection h with h
      subst h
      refine ⟨by omega, by simpa using hb, ?_⟩
      intro w hw1 hw2
      omega

/-- A button that stays pressed forever keeps the release wait spinning:
no amount of fuel makes it return. -/
theorem waitRelease_held (btn : Nat → Nat → Bool) (i : Nat) :
    ∀ (fuel t : Nat), (∀ u, t ≤ u → btn u i = true) →
      waitRelease btn i t fuel = none := by
  intro fuel
  induction fuel with
  | zero => intro t _; rfl
  | succ n ih =>
    intro t h
    simp only [waitRelease, h t (le_refl t), if_true]
    exact ih (t+1) (fun u hu => h u (by omega))

/-- The inner verification loop is the accepted-press observer followed by
the comparison with the expected value and the confirmation pulse. -/
theorem positionLoop_eq_pressOne (btn : Nat → Nat → Bool) (e : Nat) :
    ∀ (fuel t : Nat),
      positionLoop btn e t fuel =
        (pressOne btn t fuel).map (fun p => (decide (p.1 = e), p.2, pulseActs p.1)) := by
  intro fuel
  induction fuel with
  | zero => intro t; rfl
  | succ n ih =>
    intro t
    simp only [positionLoop, pressOne]
    by_cases h0 : 0 ≤ GetPressedButtonIndex (btn t)
    · rw [if_pos h0, if_pos h0]
      cases waitRelease btn (GetPressedButtonIndex (btn t)).toNat (t+1) n with
      | none => rfl
      | some u => rfl
    · rw [if_neg h0, if_neg h0]
      exact ih (t+1)

/-- Full characterization of an accepted press: there is a poll `tp` before
which no button was pressed, at which button `i` is the first-found pressed
button; the button is then read pressed up to poll `u - 2` and read released
at `u - 1`, and polling resumes at `u ≥ tp + 2`. -/
theorem pressOne_some (btn : Nat → Nat → Bool) :
    ∀ (fuel t i u : Nat), pressOne btn t fuel = some (i, u) →
      ∃ tp, t ≤ tp ∧ tp + 2 ≤ u ∧
        (∀ w, t ≤ w → w < tp → GetPressedButtonIndex (btn w) = -1) ∧
        GetPressedButtonIndex (btn tp) = (i : Int) ∧ i < 4 ∧
        (∀ w, tp < w → w < u - 1 → btn w i = true) ∧
        btn (u - 1) i = false := by
  intro fuel
  induction fuel with
  | zero => intro t i u h; simp [pressOne] at h
  | succ n ih =>
    intro t i u h
    simp only [pressOne] at h
    by_cases h0 : 0 ≤ GetPressedButtonIndex (btn t)
    · rw [if_pos h0] at h
      cases hw : waitRelease btn (GetPressedButtonIndex (btn t)).toNat (t+1) n with
      | none => rw [hw] at h; simp at h
      | some u2 =>
        rw [hw] at h
        simp only [Option.some.injEq, Prod.mk.injEq] at h
        obtain ⟨hi, hu⟩ := h
        rw [hu] at hw
        obtain ⟨hr1, hr2, hr3⟩ := waitRelease_some btn _ n (t+1) u hw
        obtain ⟨hlt, _, _⟩ := GetPressedButtonIndex_nonneg (btn t) h0
        refine ⟨t, le_refl t, by omega, fun w hw1 hw2 => absurd hw1 (by omega),
          ?_, ?_, fun w hw1 hw2 => ?_, ?_⟩
        · rw [← hi]; exact (Int.toNat_of_nonneg h0).symm
        · rw [← hi]; exact hlt
        · rw [← hi]; exact hr3 w (by omega) hw2
        · rw [← hi]; exact hr2
    · rw [if_neg h0] at h
      obtain ⟨tp, h1, h2, h3, h4, h5, h6, h7⟩ := ih (t+1) i u h
      have hneg : GetPressedButtonIndex (btn t) = -1 := by
        rcases GetPressedButtonIndex_spec (btn t) with ⟨hm, _⟩ | ⟨j, hj, _, _, _⟩
        · exact hm
        · rw [hj] at h0; exact absurd (Int.natCast_nonneg j) h0
      refine ⟨tp, by omega, h2, ?_, h4, h5, h6, h7⟩
      intro w hw1 hw2
      rcases Nat.eq_or_lt_of_le hw1 with h | h
      · rw [← h]; exact hneg
      · exact h3 w h hw2

/-- C4: (1) whenever the verification loop finishes a position, some button
`i` was the first-found press at a poll `tp`; the handler emitted exactly the
confirmation pulse of `i` — output on, hold for the fixed duration, blocking
wait for release of that same input, output off — the button was read pressed
at every poll strictly between `tp` and the observed release at `u - 1`, and
polling resumes only after that release; (2) while the button is held
continuously, the loop never returns, for any fuel — the machine does not
advance to the next expected position; (3) two consecutively accepted presses
are separated by a poll at which the first button was read released, so a
single uninterrupted hold is matched against at most one expected position. -/
theorem C4_press_release_discipline :
    (∀ (btn : Nat → Nat → Bool) (e t fuel : Nat) (b : Bool) (u : Nat) (evs : List Act),
      positionLoop btn e t fuel = some (b, u, evs) →
      ∃ i tp, evs = pulseActs i ∧ b = decide (i = e) ∧ t ≤ tp ∧ tp + 2 ≤ u ∧
        (∀ w, t ≤ w → w < tp → GetPressedButtonIndex (btn w) = -1) ∧
        GetPressedButtonIndex (btn tp) = (i : Int) ∧
        (∀ w, tp < w → w < u - 1 → btn w i = true) ∧
        btn (u - 1) i = false) ∧
    (∀ (btn : Nat → Nat → Bool) (t e i : Nat),
      GetPressedButtonIndex (btn t) = (i : Int) →
      (∀ u, t < u → btn u i = true) →
      ∀ fuel, positionLoop btn e t fuel = none) ∧
    (∀ (btn : Nat → Nat → Bool) (t f1 f2 i i2 u1 u2 : Nat),
      pressOne btn t f1 = some (i, u1) →
      pressOne btn u1 f2 = some (i2, u2) →
      ∃ tp1 tp2, GetPressedButtonIndex (btn tp1) = (i : Int) ∧
        GetPressedButtonIndex (btn tp2) = (i2 : Int) ∧ tp1 < tp2 ∧
        ∃ w, tp1 < w ∧ w < tp2 ∧ btn w i = false) := by
  refine ⟨?_, ?_, ?_⟩
  · intro btn e t fuel b u evs h
    rw [positionLoop_eq_pressOne] at h
    cases hp : pressOne btn t fuel with
    | none => rw [hp] at h; exact absurd h (by simp)
    | some p =>
      rw [hp] at h
      simp only [Option.map_some', Option.some.injEq, Prod.mk.injEq] at h
      obtain ⟨hb, hu, hevs⟩ := h
      obtain ⟨tp, h1, h2, h3, h4, h5, h6, h7⟩ :=
        pressOne_some btn fuel t p.1 p.2 (by rw [hp])
      exact ⟨p.1, tp, hevs.symm, hb.symm, h1, hu ▸ h2, h3, h4,
        fun w hw1 hw2 => h6 w hw1 (by omega), hu ▸ h7⟩
  · intro btn t e i hscan hheld fuel
    cases fuel with
    | zero => rfl
    | succ n =>
      simp only [positionLoop, hscan]
      rw [if_pos (Int.natCast_nonneg i)]
      have ht : ((i : Int)).toNat = i := Int.toNat_natCast i
      rw [ht, waitRelease_held btn i n (t+1) (fun u hu => hheld u (by omega))]
  · intro btn t f1 f2 i i2 u1 u2 h1 h2
    obtain ⟨tp1, ha1, ha2, ha3, ha4, ha5, ha6, ha7⟩ := pressOne_some btn f1 t i u1 h1
    obtain ⟨tp2, hb1, hb2, hb3, hb4, hb5, hb6, hb7⟩ := pressOne_some btn f2 u1 i2 u2 h2
    exact ⟨tp1, tp2, ha4, hb4, by omega, u1 - 1, by omega, by omega, ha7⟩

/-- Witness for C4: a press of button 2 at poll 0 released at poll 1 is
accepted with the confirmation pulse, and two such presses (polls 0 and 2)
have an observed release between them. -/
theorem C4_press_release_discipline_witness :
    (∃ i tp, pulseActs 2 = pulseActs i ∧ true = decide (i = 2) ∧ 0 ≤ tp ∧ tp + 2 ≤ 2 ∧
      (∀ w, 0 ≤ w → w < tp →
        GetPressedButtonIndex ((fun t b => (t == 0 || t == 2) && b == 2) w) = -1) ∧
      GetPressedButtonIndex ((fun t b => (t == 0 || t == 2) && b == 2) tp) = (i : Int) ∧
      (∀ w, tp < w → w < 2 - 1 → ((fun t b => (t == 0 || t == 2) && b == 2) w i) = true) ∧
      ((fun t b => (t == 0 || t == 2) && b == 2) (2 - 1) i) = false) ∧
    (∃ tp1 tp2,
      GetPressedButtonIndex ((fun t b => (t == 0 || t == 2) && b == 2) tp1) = ((2 : Nat) : Int) ∧
      GetPressedButtonIndex ((fun t b => (t == 0 || t == 2) && b == 2) tp2) = ((2 : Nat) : Int) ∧
      tp1 < tp2 ∧
      ∃ w, tp1 < w ∧ w < tp2 ∧ ((fun t b => (t == 0 || t == 2) && b == 2) w 2) = false) :=
  ⟨C4_press_release_discipline.1 (fun t b => (t == 0 || t == 2) && b == 2) 2 0 5 true 2
     (pulseActs 2) (by decide),
   C4_press_release_discipline.2.2 (fun t b => (t == 0 || t == 2) && b == 2) 0 5 5 2 2 2 4
     (by decide) (by decide)⟩

/-! ## Round-verification lemmas -/

/-- If the accepted presses are exactly the expected values, the verification
loop succeeds, emitting their confirmation pulses in order. -/
theorem roundLoop_true_of_pressList (btn : Nat → Nat → Bool) :
    ∀ (exp : List Nat) (t fuel t2 : Nat),
      pressList btn t fuel exp.length = some (exp, t2) →
      roundLoop btn exp t fuel = some (true, t2, exp.flatMap pulseActs) := by
  intro exp
  induction exp with
  | nil =>
    intro t fuel t2 h
    simp only [List.length_nil, pressList, Option.some.injEq, Prod.mk.injEq] at h
    simp [roundLoop, h.2]
  | cons e rest ih =>
    intro t fuel t2 h
    cases hp : pressOne btn t fuel with
    | none =>
      simp only [List.length_cons, pressList, hp] at h
      exact Option.noConfusion h
    | some p =>
      obtain ⟨i, t1⟩ := p
      cases hl : pressList btn t1 fuel rest.length with
      | none =>
        simp only [List.length_cons, pressList, hp, hl] at h
        exact Option.noConfusion h
      | some q =>
        obtain ⟨l, t3⟩ := q
        simp only [List.length_cons, pressList, hp, hl, Option.some.injEq,
          Prod.mk.injEq, List.cons.injEq] at h
        obtain ⟨⟨hie, hlr⟩, ht⟩ := h
        rw [hie] at hp
        rw [hlr, ht] at hl
        have hpos : positionLoop btn e t fuel = some (true, t1, pulseActs e) := by
          rw [positionLoop_eq_pressOne, hp]; simp
        simp only [roundLoop, hpos]
        rw [if_pos trivial, ih t1 fuel t2 hl]
        simp [List.flatMap_cons]

/-- If the verification loop succeeds, the accepted presses were exactly the
expected values, in order, and the emitted actions are their pulses. -/
theorem pressList_of_roundLoop_true (btn : Nat → Nat → Bool) :
    ∀ (exp : List Nat) (t fuel t2 : Nat) (evs : List Act),
      roundLoop btn exp t fuel = some (true, t2, evs) →
      pressList btn t fuel exp.length = some (exp, t2) ∧
      evs = exp.flatMap pulseActs := by
  intro exp
  induction exp with
  | nil =>
    intro t fuel t2 evs h
    simp only [roundLoop, Option.some.injEq, Prod.mk.injEq] at h
    refine ⟨?_, h.2.2.symm⟩
    simp [pressList, h.2.1]
  | cons e rest ih =>
    intro t fuel t2 evs h
    cases hp : pressOne btn t fuel with
    | none =>
      have hpos : positionLoop btn e t fuel = none := by
        rw [positionLoop_eq_pressOne, hp]; rfl
      simp only [roundLoop, hpos] at h
      exact Option.noConfusion h
    | some p =>
      obtain ⟨i, t1⟩ := p
      have hpos : positionLoop btn e t fuel =
          some (decide (i = e), t1, pulseActs i) := by
        rw [positionLoop_eq_pressOne, hp]; rfl
      by_cases hie : i = e
      · rw [show decide (i = e) = true by simp [hie]] at hpos
        cases hr : roundLoop btn rest t1 fuel with
        | none =>
          simp only [roundLoop, hpos] at h
          rw [if_pos trivial, hr] at h
          exact Option.noConfusion h
        | some r =>
          obtain ⟨ok2, t3, evs2⟩ := r
          simp only [roundLoop, hpos] at h
          rw [if_pos trivial, hr] at h
          simp only [Option.some.injEq, Prod.mk.injEq] at h
          obtain ⟨hok, ht, hevs⟩ := h
          rw [hok, ht] at hr
          obtain ⟨ihl, ihe⟩ := ih t1 fuel t2 evs2 hr
          constructor
          · simp only [List.length_cons, pressList, hp, ihl, hie]
          · rw [← hevs, ihe, hie]; simp [List.flatMap_cons]
      · rw [show decide (i = e) = false by simpa using hie] at hpos
        simp only [roundLoop, hpos] at h
        rw [if_neg Bool.false_ne_true] at h
        simp only [Option.some.injEq, Prod.mk.injEq] at h
        exact absurd h.1 (by simp)

/-- If the first `k` accepted presses match the expected prefix and the next
press mismatches position `k`, the verification loop stops right there with a
failure: the final poll index is the one just after the mismatching press's
release, and the emitted actions are the pulses of the `k` matching presses
followed by the pulse of the mismatching press only. -/
theorem roundLoop_mismatch (btn : Nat → Nat → Bool) :
    ∀ (k : Nat) (exp : List Nat) (t fuel t1 p t2 : Nat),
      k < exp.length →
      pressList btn t fuel k = some (exp.take k, t1) →
      pressOne btn t1 fuel = some (p, t2) →
      p ≠ exp.getD k 0 →
      roundLoop btn exp t fuel =
        some (false, t2, (exp.take k).flatMap pulseActs ++ pulseActs p) := by
  intro k
  induction k with
  | zero =>
    intro exp t fuel t1 p t2 hk hpl hpo hne
    cases exp with
    | nil => simp at hk
    | cons e rest =>
      simp only [List.take_zero, pressList, Option.some.injEq, Prod.mk.injEq] at hpl
      rw [← hpl.2] at hpo
      simp only [List.getD_cons_zero] at hne
      have hpos : positionLoop btn e t fuel = some (decide (p = e), t2, pulseActs p) := by
        rw [positionLoop_eq_pressOne, hpo]; rfl
      rw [show decide (p = e) = false by simpa using hne] at hpos
      simp only [roundLoop, hpos]
      rw [if_neg Bool.false_ne_true]
      simp
  | succ k ih =>
    intro exp t fuel t1 p t2 hk hpl hpo hne
    cases exp with
    | nil => simp at hk
    | cons e rest =>
      cases hp : pressOne btn t fuel with
      | none =>
        simp only [pressList, hp] at hpl
        exact Option.noConfusion hpl
      | some q =>
        obtain ⟨i, ta⟩ := q
        cases hl : pressList btn ta fuel k with
        | none =>
          simp only [pressList, hp, hl] at hpl
          exact Option.noConfusion hpl
        | some r =>
          obtain ⟨l, t3⟩ := r
          simp only [pressList, hp, hl, List.take_succ_cons, Option.some.injEq,
            Prod.mk.injEq, List.cons.injEq] at hpl
          obtain ⟨⟨hie, hlr⟩, ht⟩ := hpl
          rw [hie] at hp
          rw [hlr, ht] at hl
          have hpos : positionLoop btn e t fuel = some (true, ta, pulseActs e) := by
            rw [positionLoop_eq_pressOne, hp]; simp
          have hrec := ih rest ta fuel t1 p t2 (by simpa using hk) hl hpo
            (by simpa using hne)
          simp only [roundLoop, hpos]
          rw [if_pos trivial, hrec]
          simp [List.flatMap_cons, List.take_succ_cons]

/-- An accepted press strictly advances the poll index. -/
theorem pressOne_lt (btn : Nat → Nat → Bool) (fuel t i u : Nat)
    (h : pressOne btn t fuel = some (i, u)) : t < u := by
  obtain ⟨tp, h1, h2, _⟩ := pressOne_some btn fuel t i u h
  omega

/-- The verification loop never moves the poll index backwards. -/
theorem roundLoop_le (btn : Nat → Nat → Bool) :
    ∀ (exp : List Nat) (t fuel : Nat) (b : Bool) (t2 : Nat) (evs : List Act),
      roundLoop btn exp t fuel = some (b, t2, evs) → t ≤ t2 := by
  intro exp
  induction exp with
  | nil =>
    intro t fuel b t2 evs h
    simp only [roundLoop, Option.some.injEq, Prod.mk.injEq] at h
    obtain ⟨_, h2, _⟩ := h
    omega
  | cons e rest ih =>
    intro t fuel b t2 evs h
    cases hp : pressOne btn t fuel with
    | none =>
      have hpos : positionLoop btn e t fuel = none := by
        rw [positionLoop_eq_pressOne, hp]; rfl
      simp only [roundLoop, hpos] at h
      exact Option.noConfusion h
    | some p =>
      obtain ⟨i, t1⟩ := p
      have hlt : t < t1 := pressOne_lt btn fuel t i t1 hp
      have hpos : positionLoop btn e t fuel =
          some (decide (i = e), t1, pulseActs i) := by
        rw [positionLoop_eq_pressOne, hp]; rfl
      by_cases hie : i = e
      · rw [show decide (i = e) = true by simp [hie]] at hpos
        cases hr : roundLoop btn rest t1 fuel with
        | none =>
          simp only [roundLoop, hpos] at h
          rw [if_pos trivial, hr] at h
          exact Option.noConfusion h
        | some r =>
          obtain ⟨ok2, t3, evs2⟩ := r
          simp only [roundLoop, hpos] at h
          rw [if_pos trivial, hr] at h
          simp only [Option.some.injEq, Prod.mk.injEq] at h
          have := ih t1 fuel ok2 t3 evs2 hr
          omega
      · rw [show decide (i = e) = false by simpa using hie] at hpos
        simp only [roundLoop, hpos] at h
        rw [if_neg Bool.false_ne_true] at h
        simp only [Option.some.injEq, Prod.mk.injEq] at h
        obtain ⟨_, ht, _⟩ := h
        omega

/-! ## Trace-agreement lemmas: the handlers read no poll at or beyond the
returned poll index -/

/-- The release wait depends only on the polls before its result. -/
theorem waitRelease_agree (btn btn2 : Nat → Nat → Bool) (i : Nat) :
    ∀ (fuel t u : Nat), waitRelease btn i t fuel = some u →
      (∀ w, w < u → btn2 w = btn w) → waitRelease btn2 i t fuel = some u := by
  intro fuel
  induction fuel with
  | zero => intro t u h _; simp [waitRelease] at h
  | succ n ih =>
    intro t u h hag
    obtain ⟨h1, _, _⟩ := waitRelease_some btn i (n+1) t u h
    simp only [waitRelease] at h ⊢
    rw [hag t h1]
    by_cases hb : btn t i
    · rw [if_pos hb] at h ⊢
      exact ih (t+1) u h hag
    · rw [if_neg hb] at h ⊢
      exact h

/-- An accepted press depends only on the polls before its result. -/
theorem pressOne_agree (btn btn2 : Nat → Nat → Bool) :
    ∀ (fuel t i u : Nat), pressOne btn t fuel = some (i, u) →
      (∀ w, w < u → btn2 w = btn w) → pressOne btn2 t fuel = some (i, u) := by
  intro fuel
  induction fuel with
  | zero => intro t i u h _; simp [pressOne] at h
  | succ n ih =>
    intro t i u h hag
    have hlt : t < u := pressOne_lt btn (n+1) t i u h
    simp only [pressOne] at h ⊢
    rw [hag t hlt]
    by_cases h0 : 0 ≤ GetPressedButtonIndex (btn t)
    · rw [if_pos h0] at h ⊢
      cases hw : waitRelease btn (GetPressedButtonIndex (btn t)).toNat (t+1) n with
      | none => rw [hw] at h; exact Option.noConfusion h
      | some u2 =>
        rw [hw] at h
        simp only [Option.some.injEq, Prod.mk.injEq] at h
        have hagr : waitRelease btn2 (GetPressedButtonIndex (btn t)).toNat (t+1) n
            = some u2 := by
          apply waitRelease_agree btn btn2 _ n (t+1) u2 hw
          intro w hwu
          exact hag w (by omega)
        rw [hagr, h.1, h.2]
    · rw [if_neg h0] at h ⊢
      exact ih (t+1) i u h hag

/-- The whole verification loop depends only on the polls before its final
poll index: once it has decided, later inputs cannot change the outcome. -/
theorem roundLoop_agree (btn btn2 : Nat → Nat → Bool) :
    ∀ (exp : List Nat) (t fuel : Nat) (b : Bool) (t2 : Nat) (evs : List Act),
      roundLoop btn exp t fuel = some (b, t2, evs) →
      (∀ w, w < t2 → btn2 w = btn w) → roundLoop btn2 exp t fuel = some (b, t2, evs) := by
  intro exp
  induction exp with
  | nil => intro t fuel b t2 evs h _; exact h
  | cons e rest ih =>
    intro t fuel b t2 evs h hag
    cases hp : pressOne btn t fuel with
    | none =>
      have hpos : positionLoop btn e t fuel = none := by
        rw [positionLoop_eq_pressOne, hp]; rfl
      simp only [roundLoop, hpos] at h
      exact Option.noConfusion h
    | some p =>
      obtain ⟨i, t1⟩ := p
      have hpos : positionLoop btn e t fuel =
          some (decide (i = e), t1, pulseActs i) := by
        rw [positionLoop_eq_pressOne, hp]; rfl
      by_cases hie : i = e
      · rw [show decide (i = e) = true by simp [hie]] at hpos
        simp only [roundLoop, hpos] at h
        rw [if_pos trivial] at h
        cases hr : roundLoop btn rest t1 fuel with
        | none => rw [hr] at h; exact Option.noConfusion h
        | some r =>
          obtain ⟨ok2, t3, evs2⟩ := r
          rw [hr] at h
          simp only [Option.some.injEq, Prod.mk.injEq] at h
          have ht13 : t1 ≤ t3 := roundLoop_le btn rest t1 fuel ok2 t3 evs2 hr
          have hpo2 : pressOne btn2 t fuel = some (i, t1) := by
            apply pressOne_agree btn btn2 fuel t i t1 hp
            intro w hw
            exact hag w (by omega)
          have hr2 : roundLoop btn2 rest t1 fuel = some (ok2, t3, evs2) := by
            apply ih t1 fuel ok2 t3 evs2 hr
            intro w hw
            exact hag w (by omega)
          have hpos2 : positionLoop btn2 e t fuel = some (true, t1, pulseActs i) := by
            rw [positionLoop_eq_pressOne, hpo2]
            simp [hie]
          simp only [roundLoop, hpos2]
          rw [if_pos trivial, hr2]
          simp only [Option.some.injEq, Prod.mk.injEq]
          exact ⟨h.1, h.2.1, h.2.2⟩
      · rw [show decide (i = e) = false by simpa using hie] at hpos
        simp only [roundLoop, hpos] at h
        rw [if_neg Bool.false_ne_true] at h
        simp only [Option.some.injEq, Prod.mk.injEq] at h
        have hpo2 : pressOne btn2 t fuel = some (i, t1) := by
          apply pressOne_agree btn btn2 fuel t i t1 hp
          intro w hw
          exact hag w (by omega)
        have hpos2 : positionLoop btn2 e t fuel = some (false, t1, pulseActs i) := by
          rw [positionLoop_eq_pressOne, hpo2]
          simp [hie]
        simp only [roundLoop, hpos2]
        rw [if_neg Bool.false_ne_true]
        simp only [Option.some.injEq, Prod.mk.injEq]
        exact ⟨h.1, h.2.1, h.2.2⟩

/-! ## `PLAYER_SAYS` case analysis -/

/-- Exhaustive case analysis of the `PLAYER_SAYS` handler: the round either
fully matched (then win at the last level, else advance), or failed. -/
theorem playerStep_cases (btn : Nat → Nat → Bool) (t fuel : Nat) (m m2 : Machine)
    (t2 : Nat) (evs : List Act)
    (h : playerStep btn t fuel m = some (m2, t2, evs)) :
    ∃ b, roundLoop btn (m.sequence.take (m.current_level + 1)) t fuel
        = some (b, t2, evs) ∧
      ((b = true ∧ m.current_level = MAX_LEVEL - 1 ∧
          m2 = { m with state := GameState.WIN }) ∨
       (b = true ∧ m.current_level ≠ MAX_LEVEL - 1 ∧
          m2 = { m with current_level := m.current_level + 1,
                        state := GameState.SIMON_SAYS }) ∨
       (b = false ∧ m2 = { m with state := GameState.GAME_OVER })) := by
  unfold playerStep at h
  split at h
  · exact Option.noConfusion h
  · rename_i ok t1 evs1 heq
    cases ok with
    | true =>
      rw [if_pos (show true = true from rfl)] at h
      by_cases hlvl : m.current_level = MAX_LEVEL - 1
      · rw [if_pos hlvl] at h
        simp only [Option.some.injEq, Prod.mk.injEq] at h
        exact ⟨true, by rw [heq, h.2.1, h.2.2], Or.inl ⟨rfl, hlvl, h.1.symm⟩⟩
      · rw [if_neg hlvl] at h
        simp only [Option.some.injEq, Prod.mk.injEq] at h
        exact ⟨true, by rw [heq, h.2.1, h.2.2], Or.inr (Or.inl ⟨rfl, hlvl, h.1.symm⟩)⟩
    | false =>
      rw [if_neg Bool.false_ne_true] at h
      simp only [Option.some.injEq, Prod.mk.injEq] at h
      exact ⟨false, by rw [heq, h.2.1, h.2.2], Or.inr (Or.inr ⟨rfl, h.1.symm⟩)⟩

/-- Reading inside the taken prefix sees the original list. -/
theorem getD_take (l : List Nat) (i n : Nat) (h : i < n) :
    (l.take n).getD i 0 = l.getD i 0 := by
  simp [List.getD_eq_getElem?_getD, List.getElem?_take, h]

/-- C1: in `PLAYER_SAYS`, the machine leaves for `SIMON_SAYS` or `WIN`
exactly when the accepted presses reproduce `sequence[0..current_level]`
exactly, in order; in that case it goes to `WIN` exactly when
`current_level = MAX_LEVEL - 1` and otherwise increments `current_level` and
goes to `SIMON_SAYS`. -/
theorem C1_round_advance (e : Env) (t fuel : Nat) (m m2 : Machine)
    (t2 : Nat) (evs : List Act)
    (hst : m.state = GameState.PLAYER_SAYS)
    (hlen : m.current_level + 1 ≤ m.sequence.length)
    (h : step e fuel t m = some (m2, t2, evs)) :
    ((m2.state = GameState.SIMON_SAYS ∨ m2.state = GameState.WIN) ↔
      pressList e.btn t fuel (m.current_level + 1)
        = some (m.sequence.take (m.current_level + 1), t2)) ∧
    (m2.state = GameState.WIN ↔
      (pressList e.btn t fuel (m.current_level + 1)
        = some (m.sequence.take (m.current_level + 1), t2) ∧
       m.current_level = MAX_LEVEL - 1)) ∧
    (m2.state = GameState.SIMON_SAYS ↔
      (pressList e.btn t fuel (m.current_level + 1)
        = some (m.sequence.take (m.current_level + 1), t2) ∧
       m.current_level ≠ MAX_LEVEL - 1)) ∧
    (m2.state = GameState.SIMON_SAYS →
      m2.current_level = m.current_level + 1 ∧ m2.sequence = m.sequence) ∧
    (m2.state = GameState.WIN → m2.current_level = m.current_level) := by
  simp only [step, hst] at h
  obtain ⟨b, hr, hc⟩ := playerStep_cases e.btn t fuel m m2 t2 evs h
  have hlen2 : (m.sequence.take (m.current_level + 1)).length = m.current_level + 1 := by
    rw [List.length_take]; omega
  rcases hc with ⟨hb, hlvl, hm2⟩ | ⟨hb, hlvl, hm2⟩ | ⟨hb, hm2⟩
  · rw [hb] at hr
    have hpl := pressList_of_roundLoop_true e.btn _ t fuel t2 evs hr
    rw [hlen2] at hpl
    subst hm2
    refine ⟨⟨fun _ => hpl.1, fun _ => Or.inr rfl⟩,
      ⟨fun _ => ⟨hpl.1, hlvl⟩, fun _ => rfl⟩,
      ⟨fun hw => absurd hw (by simp), fun hc2 => absurd hlvl hc2.2⟩,
      fun hw => absurd hw (by simp), fun _ => rfl⟩
  · rw [hb] at hr
    have hpl := pressList_of_roundLoop_true e.btn _ t fuel t2 evs hr
    rw [hlen2] at hpl
    subst hm2
    refine ⟨⟨fun _ => hpl.1, fun _ => Or.inl rfl⟩,
      ⟨fun hw => absurd hw (by simp), fun hc2 => absurd hc2.2 hlvl⟩,
      ⟨fun _ => ⟨hpl.1, hlvl⟩, fun _ => rfl⟩,
      fun _ => ⟨rfl, rfl⟩, fun hw => absurd hw (by simp)⟩
  · rw [hb] at hr
    subst hm2
    have hnpl : ¬ pressList e.btn t fuel (m.current_level + 1)
        = some (m.sequence.take (m.current_level + 1), t2) := by
      intro hpl
      have h2 := roundLoop_true_of_pressList e.btn
        (m.sequence.take (m.current_level + 1)) t fuel t2 (by rw [hlen2]; exact hpl)
      rw [hr] at h2
      simp at h2
    refine ⟨⟨fun hor => absurd hor (by simp), fun hpl2 => absurd hpl2 hnpl⟩,
      ⟨fun hw => absurd hw (by simp), fun hc2 => absurd hc2.1 hnpl⟩,
      ⟨fun hw => absurd hw (by simp), fun hc2 => absurd hc2.1 hnpl⟩,
      fun hw => absurd hw (by simp), fun hw => absurd hw (by simp)⟩

/-- Witness for C1: at level 0 expecting `[2]`, the player presses button 2
(released after one poll); the machine advances to `SIMON_SAYS` with
`current_level = 1`. -/
theorem C1_round_advance_witness :
    (Machine.mk GameState.SIMON_SAYS 1 [2, 9, 9, 9, 9] ⟨[], 0⟩).state
        = GameState.SIMON_SAYS ↔
      pressList (fun t i => t == 0 && i == 2) 0 5 1 = some ([2], 2) ∧
      (0 : Nat) ≠ MAX_LEVEL - 1 :=
  (C1_round_advance ⟨fun _ => false, fun _ => 0, fun t i => t == 0 && i == 2⟩ 0 5
    ⟨GameState.PLAYER_SAYS, 0, [2, 9, 9, 9, 9], ⟨[], 0⟩⟩
    ⟨GameState.SIMON_SAYS, 1, [2, 9, 9, 9, 9], ⟨[], 0⟩⟩ 2 (pulseActs 2)
    rfl (by norm_num) (by decide)).2.2.1

/-- C2: in `PLAYER_SAYS`, when the first `k` accepted presses match the
expected prefix and press `k + 1` mismatches `sequence[k]`, the machine
transitions to `GAME_OVER` immediately: the final poll index is the one just
after the mismatching press's release (no further input is waited on), the
emitted actions stop with the mismatching press's pulse (no further position
is checked), and the outcome does not depend on the trace beyond that poll. -/
theorem C2_mismatch_aborts (e : Env) (t fuel : Nat) (m : Machine)
    (k t1 p t2 : Nat)
    (hst : m.state = GameState.PLAYER_SAYS)
    (hlen : m.current_level + 1 ≤ m.sequence.length)
    (hk : k ≤ m.current_level)
    (hmatch : pressList e.btn t fuel k = some (m.sequence.take k, t1))
    (hpress : pressOne e.btn t1 fuel = some (p, t2))
    (hmis : p ≠ m.sequence.getD k 0) :
    step e fuel t m = some ({ m with state := GameState.GAME_OVER }, t2,
      (m.sequence.take k).flatMap pulseActs ++ pulseActs p) ∧
    ∀ btn2 : Nat → Nat → Bool, (∀ w, w < t2 → btn2 w = e.btn w) →
      playerStep btn2 t fuel m = some ({ m with state := GameState.GAME_OVER }, t2,
        (m.sequence.take k).flatMap pulseActs ++ pulseActs p) := by
  have hlen2 : (m.sequence.take (m.current_level + 1)).length = m.current_level + 1 := by
    rw [List.length_take]; omega
  have htk : (m.sequence.take (m.current_level + 1)).take k = m.sequence.take k := by
    rw [List.take_take, Nat.min_eq_left (by omega)]
  have hgd : (m.sequence.take (m.current_level + 1)).getD k 0 = m.sequence.getD k 0 :=
    getD_take m.sequence k (m.current_level + 1) (by omega)
  have hround : roundLoop e.btn (m.sequence.take (m.current_level + 1)) t fuel
      = some (false, t2, (m.sequence.take k).flatMap pulseActs ++ pulseActs p) := by
    have h2 := roundLoop_mismatch e.btn k (m.sequence.take (m.current_level + 1))
      t fuel t1 p t2 (by omega) (by rw [htk]; exact hmatch) hpress (by rw [hgd]; exact hmis)
    rwa [htk] at h2
  have hps : playerStep e.btn t fuel m
      = some ({ m with state := GameState.GAME_OVER }, t2,
        (m.sequence.take k).flatMap pulseActs ++ pulseActs p) := by
    unfold playerStep
    rw [hround]
    rfl
  constructor
  · simp only [step, hst]
    exact hps
  · intro btn2 hag
    have hround2 := roundLoop_agree e.btn btn2 (m.sequence.take (m.current_level + 1))
      t fuel false t2 ((m.sequence.take k).flatMap pulseActs ++ pulseActs p) hround hag
    unfold playerStep
    rw [hround2]
    rfl

/-- Witness for C2: at level 1 expecting `[2, 0]`, the player presses 2
(matching) then 1 (mismatching position 1): immediate `GAME_OVER` at poll 4
with exactly the two confirmation pulses. -/
theorem C2_mismatch_aborts_witness :
    step ⟨fun _ => false, fun _ => 0,
        fun t i => (t == 0 && i == 2) || (t == 2 && i == 1)⟩ 5 0
      ⟨GameState.PLAYER_SAYS, 1, [2, 0, 9, 9, 9], ⟨[], 0⟩⟩
      = some (⟨GameState.GAME_OVER, 1, [2, 0, 9, 9, 9], ⟨[], 0⟩⟩, 4,
        ([2] : List Nat).flatMap pulseActs ++ pulseActs 1) :=
  (C2_mismatch_aborts ⟨fun _ => false, fun _ => 0,
      fun t i => (t == 0 && i == 2) || (t == 2 && i == 1)⟩ 0 5
    ⟨GameState.PLAYER_SAYS, 1, [2, 0, 9, 9, 9], ⟨[], 0⟩⟩ 1 2 1 4
    rfl (by norm_num) (by norm_num) (by decide) (by decide) (by decide)).1

/-! ## `SIMON_SAYS` lemmas -/

/-- Closed form of the demonstration loop: the pulses of positions
`i, i+1, ..., i+k-1`, in ascending order. -/
theorem demoAux_eq (seq : List Nat) : ∀ (k i : Nat),
    demoAux seq i k = (List.range' i k).flatMap
      (fun j => [Act.ledOn (seq.getD j 0), Act.delayMs GAME_SPEED_MS,
                 Act.ledOff (seq.getD j 0), Act.delayMs GAME_SPEED_MS]) := by
  intro k
  induction k with
  | zero => intro i; rfl
  | succ n ih =>
    intro i
    rw [List.range'_succ]
    simp only [demoAux, List.flatMap_cons, ih (i+1)]
    rfl

/-- Inversion of the `SIMON_SAYS` handler: one fresh draw written at
`current_level`, state moves to `PLAYER_SAYS`, and the playback actions. -/
theorem simonStep_some (fuel : Nat) (m m2 : Machine) (evs : List Act)
    (h : simonStep fuel m = some (m2, evs)) :
    ∃ v g2, distribNext fuel m.gen = some (v, g2) ∧
      m2 = { m with sequence := m.sequence.set m.current_level v, gen := g2,
                    state := GameState.PLAYER_SAYS } ∧
      evs = demoActs (m.sequence.set m.current_level v) m.current_level := by
  unfold simonStep at h
  cases hd : distribNext fuel m.gen with
  | none => rw [hd] at h; exact Option.noConfusion h
  | some p =>
    obtain ⟨v, g2⟩ := p
    rw [hd] at h
    simp only [Option.some.injEq, Prod.mk.injEq] at h
    exact ⟨v, g2, rfl, h.1.symm, h.2.symm⟩

/-- C3: on entry to `SIMON_SAYS` exactly one freshly generated index is
written at position `current_level`, then the entire prefix
`sequence[0..current_level]` is emitted as pulses in strict ascending
position order — each output on for the fixed duration, then off for an
equal duration — and the machine moves to `PLAYER_SAYS` without touching
`current_level` or the poll trace. -/
theorem C3_demonstration (e : Env) (fuel t : Nat) (m m2 : Machine)
    (t2 : Nat) (evs : List Act)
    (hst : m.state = GameState.SIMON_SAYS)
    (h : step e fuel t m = some (m2, t2, evs)) :
    ∃ v g2, distribNext fuel m.gen = some (v, g2) ∧ v < 4 ∧
      m2.sequence = m.sequence.set m.current_level v ∧ m2.gen = g2 ∧
      m2.current_level = m.current_level ∧
      m2.state = GameState.PLAYER_SAYS ∧ t2 = t ∧
      evs = (List.range (m.current_level + 1)).flatMap
        (fun j => [Act.ledOn (m2.sequence.getD j 0), Act.delayMs GAME_SPEED_MS,
                   Act.ledOff (m2.sequence.getD j 0), Act.delayMs GAME_SPEED_MS]) := by
  simp only [step, hst] at h
  cases hs : simonStep fuel m with
  | none => rw [hs] at h; exact Option.noConfusion h
  | some p =>
    obtain ⟨m3, evs3⟩ := p
    rw [hs] at h
    simp only [Option.map_some', Option.some.injEq, Prod.mk.injEq] at h
    obtain ⟨hm, ht, he⟩ := h
    obtain ⟨v, g2, hd, hm3, hevs3⟩ := simonStep_some fuel m m3 evs3 hs
    refine ⟨v, g2, hd, distribNext_lt fuel m.gen v g2 hd, ?_, ?_, ?_, ?_, ht.symm, ?_⟩
    · rw [← hm, hm3]
    · rw [← hm, hm3]
    · rw [← hm, hm3]
    · rw [← hm, hm3]
    · rw [← he, hevs3, ← hm, hm3]
      simp only [demoActs, demoAux_eq, List.range_eq_range']

/-- Witness for C3 at a concrete machine: level 1, previous prefix `[1]`,
fresh draw 0 appended, both positions replayed in order. -/
theorem C3_demonstration_witness :
    ∃ v g2, distribNext 1 (MTState.mk [7] 0) = some (v, g2) ∧ v < 4 ∧
      (Machine.mk GameState.PLAYER_SAYS 1 [1, 0, 9, 9, 9] ⟨[7], 1⟩).sequence
        = ([1, 9, 9, 9, 9] : List Nat).set 1 v ∧
      (Machine.mk GameState.PLAYER_SAYS 1 [1, 0, 9, 9, 9] ⟨[7], 1⟩).gen = g2 ∧
      (Machine.mk GameState.PLAYER_SAYS 1 [1, 0, 9, 9, 9] ⟨[7], 1⟩).current_level = 1 ∧
      (Machine.mk GameState.PLAYER_SAYS 1 [1, 0, 9, 9, 9] ⟨[7], 1⟩).state
        = GameState.PLAYER_SAYS ∧ (0 : Nat) = 0 ∧
      demoActs [1, 0, 9, 9, 9] 1 = (List.range (1 + 1)).flatMap
        (fun j => [Act.ledOn ((Machine.mk GameState.PLAYER_SAYS 1 [1, 0, 9, 9, 9]
            ⟨[7], 1⟩).sequence.getD j 0), Act.delayMs GAME_SPEED_MS,
          Act.ledOff ((Machine.mk GameState.PLAYER_SAYS 1 [1, 0, 9, 9, 9]
            ⟨[7], 1⟩).sequence.getD j 0), Act.delayMs GAME_SPEED_MS]) :=
  C3_demonstration ⟨fun _ => false, fun _ => 0, fun _ _ => false⟩ 1 0
    ⟨GameState.SIMON_SAYS, 1, [1, 9, 9, 9, 9], ⟨[7], 0⟩⟩
    ⟨GameState.PLAYER_SAYS, 1, [1, 0, 9, 9, 9], ⟨[7], 1⟩⟩ 0
    (demoActs [1, 0, 9, 9, 9] 1) rfl (by decide)

/-- C8: the Start input is read only in `IDLE`: in every other state the
step result — game state, `current_level`, `sequence`, generator, poll
index, and emitted actions alike — is identical for any two environments
that agree on the buttons and the clock but differ arbitrarily on Start. -/
theorem C8_start_ignored_outside_idle (e1 e2 : Env) (fuel t : Nat) (m : Machine)
    (hst : m.state ≠ GameState.IDLE) (hbtn : e1.btn = e2.btn) :
    step e1 fuel t m = step e2 fuel t m := by
  cases hs : m.state with
  | IDLE => exact absurd hs hst
  | SIMON_SAYS => simp [step, hs]
  | PLAYER_SAYS => simp [step, hs, hbtn]
  | GAME_OVER => simp [step, hs]
  | WIN => simp [step, hs]

/-- Witness for C8: two environments, Start held in one and idle in the
other, produce the same step from a `GAME_OVER` machine. -/
theorem C8_start_ignored_outside_idle_witness :
    step ⟨fun _ => true, fun _ => 0, fun _ _ => false⟩ 5 0
        ⟨GameState.GAME_OVER, 2, [1, 2, 3, 0, 1], ⟨[], 0⟩⟩
      = step ⟨fun _ => false, fun _ => 0, fun _ _ => false⟩ 5 0
        ⟨GameState.GAME_OVER, 2, [1, 2, 3, 0, 1], ⟨[], 0⟩⟩ :=
  C8_start_ignored_outside_idle ⟨fun _ => true, fun _ => 0, fun _ _ => false⟩
    ⟨fun _ => false, fun _ => 0, fun _ _ => false⟩ 5 0
    ⟨GameState.GAME_OVER, 2, [1, 2, 3, 0, 1], ⟨[], 0⟩⟩ (by decide) rfl

/-- Reading position 0 after writing position 0 of a nonempty list gives the
written value. -/
theorem getD_set_zero (l : List Nat) (v : Nat) (h : 0 < l.length) :
    (l.set 0 v).getD 0 0 = v := by
  cases l with
  | nil => simp at h
  | cons x xs => rfl

/-- Inversion of the `IDLE` handler when Start is active: the generator is
seeded from the current tick, `current_level` is reset to 0, and the state
moves to `SIMON_SAYS`; `sequence` is untouched. -/
theorem idleStep_start (e : Env) (fuel t : Nat) (m m2 : Machine) (t2 : Nat)
    (evs : List Act)
    (hst : m.state = GameState.IDLE) (hstart : e.start t = true)
    (h : step e fuel t m = some (m2, t2, evs)) :
    m2 = { m with gen := mtSeed (e.tick t), current_level := 0,
                  state := GameState.SIMON_SAYS } ∧ t2 = t + 1 ∧ evs = [] := by
  simp only [step, hst] at h
  rw [if_pos hstart] at h
  simp only [Option.some.injEq, Prod.mk.injEq] at h
  exact ⟨h.1.symm, h.2.1.symm, h.2.2.symm⟩

/-- C9: (a) leaving `GAME_OVER` or `WIN` returns to `IDLE` and changes
nothing else; (b) leaving `IDLE` on an active Start input resets
`current_level` to 0 and reseeds the generator from the tick; (c) two
sessions started at the same tick write the same freshly generated value
into `sequence[0]` regardless of the previous sessions' sequences; (d) no
transition out of a non-`IDLE` state sets `current_level` to a value other
than its old value or its successor — in particular none resets it to 0
(the successor is never 0), so the reset happens only on the
`IDLE`-to-`SIMON_SAYS` transition. -/
theorem C9_session_reset :
    (∀ (e : Env) (fuel t : Nat) (m m2 : Machine) (t2 : Nat) (evs : List Act),
      m.state = GameState.GAME_OVER ∨ m.state = GameState.WIN →
      step e fuel t m = some (m2, t2, evs) →
      m2.state = GameState.IDLE ∧ m2.current_level = m.current_level ∧
        m2.sequence = m.sequence ∧ m2.gen = m.gen) ∧
    (∀ (e : Env) (fuel t : Nat) (m m2 : Machine) (t2 : Nat) (evs : List Act),
      m.state = GameState.IDLE → e.start t = true →
      step e fuel t m = some (m2, t2, evs) →
      m2.current_level = 0 ∧ m2.state = GameState.SIMON_SAYS ∧
        m2.gen = mtSeed (e.tick t) ∧ m2.sequence = m.sequence) ∧
    (∀ (e : Env) (fuel fuel2 t : Nat) (m1 m2 : Machine),
      m1.state = GameState.IDLE → m2.state = GameState.IDLE →
      0 < m1.sequence.length → 0 < m2.sequence.length →
      e.start t = true →
      ((step e fuel t m1).bind fun r =>
        (simonStep fuel2 r.1).map fun q => (q.1.sequence.getD 0 0, q.1.current_level))
      = ((step e fuel t m2).bind fun r =>
        (simonStep fuel2 r.1).map fun q => (q.1.sequence.getD 0 0, q.1.current_level))) ∧
    (∀ (e : Env) (fuel t : Nat) (m m2 : Machine) (t2 : Nat) (evs : List Act),
      m.state ≠ GameState.IDLE →
      step e fuel t m = some (m2, t2, evs) →
      m2.current_level = m.current_level ∨
        m2.current_level = m.current_level + 1) := by
  refine ⟨?_, ?_, ?_, ?_⟩
  · intro e fuel t m m2 t2 evs hterm h
    rcases hterm with h1 | h1 <;>
      (simp only [step, h1] at h;
       simp only [Option.some.injEq, Prod.mk.injEq] at h;
       exact ⟨by rw [← h.1], by rw [← h.1], by rw [← h.1], by rw [← h.1]⟩)
  · intro e fuel t m m2 t2 evs hst hstart h
    obtain ⟨hm2, _, _⟩ := idleStep_start e fuel t m m2 t2 evs hst hstart h
    exact ⟨by rw [hm2], by rw [hm2], by rw [hm2], by rw [hm2]⟩
  · intro e fuel fuel2 t m1 m2 hm1 hm2 hl1 hl2 hstart
    have h1 : step e fuel t m1 = some ({ m1 with gen := mtSeed (e.tick t), current_level := 0, state := GameState.SIMON_SAYS }, t+1, []) := by
      simp only [step, hm1]
      rw [if_pos hstart]
    have h2 : step e fuel t m2 = some ({ m2 with gen := mtSeed (e.tick t), current_level := 0, state := GameState.SIMON_SAYS }, t+1, []) := by
      simp only [step, hm2]
      rw [if_pos hstart]
    rw [h1, h2]
    show ((simonStep fuel2 _).map _) = ((simonStep fuel2 _).map _)
    cases hd : distribNext fuel2 (mtSeed (e.tick t)) with
    | none =>
      have e1 : simonStep fuel2 { m1 with gen := mtSeed (e.tick t), current_level := 0, state := GameState.SIMON_SAYS } = none := by
        unfold simonStep
        rw [show ({ m1 with gen := mtSeed (e.tick t), current_level := 0, state := GameState.SIMON_SAYS } : Machine).gen = mtSeed (e.tick t) from rfl, hd]
      have e2 : simonStep fuel2 { m2 with gen := mtSeed (e.tick t), current_level := 0, state := GameState.SIMON_SAYS } = none := by
        unfold simonStep
        rw [show ({ m2 with gen := mtSeed (e.tick t), current_level := 0, state := GameState.SIMON_SAYS } : Machine).gen = mtSeed (e.tick t) from rfl, hd]
      rw [e1, e2]
    | some p =>
      obtain ⟨v, g2⟩ := p
      have e1 : simonStep fuel2 { m1 with gen := mtSeed (e.tick t), current_level := 0, state := GameState.SIMON_SAYS } = some (⟨GameState.PLAYER_SAYS, 0, m1.sequence.set 0 v, g2⟩, demoActs (m1.sequence.set 0 v) 0) := by
        unfold simonStep
        rw [show ({ m1 with gen := mtSeed (e.tick t), current_level := 0, state := GameState.SIMON_SAYS } : Machine).gen = mtSeed (e.tick t) from rfl, hd]
      have e2 : simonStep fuel2 { m2 with gen := mtSeed (e.tick t), current_level := 0, state := GameState.SIMON_SAYS } = some (⟨GameState.PLAYER_SAYS, 0, m2.sequence.set 0 v, g2⟩, demoActs (m2.sequence.set 0 v) 0) := by
        unfold simonStep
        rw [show ({ m2 with gen := mtSeed (e.tick t), current_level := 0, state := GameState.SIMON_SAYS } : Machine).gen = mtSeed (e.tick t) from rfl, hd]
      rw [e1, e2]
      simp only [Option.map_some']
      rw [getD_set_zero _ _ hl1, getD_set_zero _ _ hl2]
  · intro e fuel t m m2 t2 evs hst h
    cases hs : m.state with
    | IDLE => exact absurd hs hst
    | SIMON_SAYS =>
      simp only [step, hs] at h
      cases hsim : simonStep fuel m with
      | none => rw [hsim] at h; exact Option.noConfusion h
      | some p =>
        obtain ⟨m3, evs3⟩ := p
        rw [hsim] at h
        simp only [Option.map_some', Option.some.injEq, Prod.mk.injEq] at h
        obtain ⟨v, g2, _, hm3, _⟩ := simonStep_some fuel m m3 evs3 hsim
        left
        rw [← h.1, hm3]
    | PLAYER_SAYS =>
      simp only [step, hs] at h
      obtain ⟨b, hr, hc⟩ := playerStep_cases e.btn t fuel m m2 t2 evs h
      rcases hc with ⟨_, _, hm2⟩ | ⟨_, _, hm2⟩ | ⟨_, hm2⟩
      · left; rw [hm2]
      · right; rw [hm2]
      · left; rw [hm2]
    | GAME_OVER =>
      simp only [step, hs] at h
      simp only [Option.some.injEq, Prod.mk.injEq] at h
      left
      rw [← h.1]
    | WIN =>
      simp only [step, hs] at h
      simp only [Option.some.injEq, Prod.mk.injEq] at h
      left
      rw [← h.1]

set_option maxRecDepth 100000 in
set_option maxHeartbeats 4000000 in
/-- Witness for C9: a `GAME_OVER` exit, a fresh start at tick 0 from two
different previous sequences (`[3,3,3,3,3]` and `[9,9,9,9,9]`), both writing
the same fresh draw into position 0. -/
theorem C9_session_reset_witness :
    (GameState.IDLE = GameState.IDLE ∧ (2 : Nat) = 2 ∧
      ([0, 1, 2, 3, 0] : List Nat) = [0, 1, 2, 3, 0] ∧
      MTState.mk [] 0 = MTState.mk [] 0) ∧
    ((0 : Nat) = 0 ∧ GameState.SIMON_SAYS = GameState.SIMON_SAYS ∧
      mtSeed 0 = mtSeed 0 ∧ ([3, 3, 3, 3, 3] : List Nat) = [3, 3, 3, 3, 3]) ∧
    (((step ⟨fun _ => true, fun _ => 0, fun _ _ => false⟩ 1 0
        ⟨GameState.IDLE, 7, [3, 3, 3, 3, 3], ⟨[], 0⟩⟩).bind fun r =>
        (simonStep 0 r.1).map fun q => (q.1.sequence.getD 0 0, q.1.current_level))
      = ((step ⟨fun _ => true, fun _ => 0, fun _ _ => false⟩ 1 0
        ⟨GameState.IDLE, 4, [9, 9, 9, 9, 9], ⟨[8], 3⟩⟩).bind fun r =>
        (simonStep 0 r.1).map fun q => (q.1.sequence.getD 0 0, q.1.current_level))) ∧
    ((2 : Nat) = 2 ∨ (2 : Nat) = 2 + 1) :=
  ⟨C9_session_reset.1 ⟨fun _ => true, fun _ => 0, fun _ _ => false⟩ 1 0
      ⟨GameState.GAME_OVER, 2, [0, 1, 2, 3, 0], ⟨[], 0⟩⟩
      ⟨GameState.IDLE, 2, [0, 1, 2, 3, 0], ⟨[], 0⟩⟩ 0 ToggleLEDsForGameOver
      (Or.inl rfl) (by decide),
   C9_session_reset.2.1 ⟨fun _ => true, fun _ => 0, fun _ _ => false⟩ 1 0
      ⟨GameState.IDLE, 7, [3, 3, 3, 3, 3], ⟨[], 0⟩⟩
      ⟨GameState.SIMON_SAYS, 0, [3, 3, 3, 3, 3], mtSeed 0⟩ 1 []
      rfl rfl (by decide),
   C9_session_reset.2.2.1 ⟨fun _ => true, fun _ => 0, fun _ _ => false⟩ 1 0 0
      ⟨GameState.IDLE, 7, [3, 3, 3, 3, 3], ⟨[], 0⟩⟩
      ⟨GameState.IDLE, 4, [9, 9, 9, 9, 9], ⟨[8], 3⟩⟩
      rfl rfl (by norm_num) (by norm_num) rfl,
   C9_session_reset.2.2.2 ⟨fun _ => true, fun _ => 0, fun _ _ => false⟩ 1 0
      ⟨GameState.GAME_OVER, 2, [0, 1, 2, 3, 0], ⟨[], 0⟩⟩
      ⟨GameState.IDLE, 2, [0, 1, 2, 3, 0], ⟨[], 0⟩⟩ 0 ToggleLEDsForGameOver
      (by decide) (by decide)⟩

/-! ## LED exclusivity -/

/-- Actions distribute over concatenation. -/
theorem applyActs_append (s : List Bool) (a b : List Act) :
    applyActs s (a ++ b) = applyActs (applyActs s a) b :=
  List.foldl_append applyAct s a b

/-- Setting one position of the all-off state leaves at most one LED on. -/
theorem set_true_count (x : Nat) :
    activeCount ([false, false, false, false].set x true) ≤ 1 := by
  rcases x with _ | _ | _ | _ | x
  · decide
  · decide
  · decide
  · decide
  · rw [List.set_eq_of_length_le (by simp)]
    decide

/-- Setting a position on then off returns to the all-off state. -/
theorem set_true_then_false (x : Nat) :
    (([false, false, false, false].set x true).set x false)
      = [false, false, false, false] := by
  rcases x with _ | _ | _ | _ | x
  · decide
  · decide
  · decide
  · decide
  · rw [List.set_eq_of_length_le (by simp), List.set_eq_of_length_le (by simp)]

/-- Concatenating a prefix-safe block that returns to all-off with another
prefix-safe block keeps every prefix at one active LED at most. -/
theorem safe_append (a b : List Act)
    (ha1 : ∀ k, activeCount (applyActs allOff (a.take k)) ≤ 1)
    (ha2 : applyActs allOff a = allOff)
    (hb1 : ∀ k, activeCount (applyActs allOff (b.take k)) ≤ 1) :
    ∀ k, activeCount (applyActs allOff ((a ++ b).take k)) ≤ 1 := by
  intro k
  rw [List.take_append_eq_append_take, applyActs_append]
  by_cases hk : k ≤ a.length
  · rw [Nat.sub_eq_zero_of_le hk, List.take_zero]
    exact ha1 k
  · rw [List.take_of_length_le (by omega), ha2]
    exact hb1 (k - a.length)

/-- Every prefix of a demonstration pulse keeps at most one LED on. -/
theorem demoPulse_take (x : Nat) : ∀ k, activeCount (applyActs allOff
    ((Act.ledOn x :: Act.delayMs GAME_SPEED_MS :: Act.ledOff x ::
      Act.delayMs GAME_SPEED_MS :: []).take k)) ≤ 1 := by
  intro k
  rcases k with _ | _ | _ | _ | k
  · exact Nat.zero_le 1
  · exact set_true_count x
  · exact set_true_count x
  · show activeCount (([false, false, false, false].set x true).set x false) ≤ 1
    rw [set_true_then_false]
    decide
  · rw [List.take_of_length_le (by simp)]
    show activeCount (([false, false, false, false].set x true).set x false) ≤ 1
    rw [set_true_then_false]
    decide

/-- A demonstration pulse ends with all LEDs off. -/
theorem demoPulse_total (x : Nat) : applyActs allOff
    (Act.ledOn x :: Act.delayMs GAME_SPEED_MS :: Act.ledOff x ::
      Act.delayMs GAME_SPEED_MS :: []) = allOff :=
  set_true_then_false x

/-- Every prefix of a confirmation pulse keeps at most one LED on. -/
theorem pulseActs_take (x : Nat) :
    ∀ k, activeCount (applyActs allOff ((pulseActs x).take k)) ≤ 1 := by
  intro k
  rcases k with _ | _ | _ | _ | _ | k
  · exact Nat.zero_le 1
  · exact set_true_count x
  · exact set_true_count x
  · exact set_true_count x
  · show activeCount (([false, false, false, false].set x true).set x false) ≤ 1
    rw [set_true_then_false]
    decide
  · rw [List.take_of_length_le (by simp [pulseActs])]
    show activeCount (([false, false, false, false].set x true).set x false) ≤ 1
    rw [set_true_then_false]
    decide

/-- A confirmation pulse ends with all LEDs off. -/
theorem pulseActs_total (x : Nat) : applyActs allOff (pulseActs x) = allOff :=
  set_true_then_false x

/-- Every prefix of a win-animation pulse keeps at most one LED on. -/
theorem winPulse_take (x : Nat) : ∀ k, activeCount (applyActs allOff
    ((Act.ledOn x :: Act.delayMs WIN_ANIMATION_MS :: Act.ledOff x :: []).take k)) ≤ 1 := by
  intro k
  rcases k with _ | _ | _ | k
  · exact Nat.zero_le 1
  · exact set_true_count x
  · exact set_true_count x
  · rw [List.take_of_length_le (by simp)]
    show activeCount (([false, false, false, false].set x true).set x false) ≤ 1
    rw [set_true_then_false]
    decide

/-- A win-animation pulse ends with all LEDs off. -/
theorem winPulse_total (x : Nat) : applyActs allOff
    (Act.ledOn x :: Act.delayMs WIN_ANIMATION_MS :: Act.ledOff x :: []) = allOff :=
  set_true_then_false x

/-- The demonstration playback keeps at most one LED on at every point and
ends with all LEDs off. -/
theorem demoAux_safe (seq : List Nat) : ∀ (k i : Nat),
    (∀ j, activeCount (applyActs allOff ((demoAux seq i k).take j)) ≤ 1) ∧
    applyActs allOff (demoAux seq i k) = allOff := by
  intro k
  induction k with
  | zero =>
    intro i
    constructor
    · intro j
      rw [show demoAux seq i 0 = [] from rfl, List.take_nil]
      decide
    · rfl
  | succ n ih =>
    intro i
    have hsplit : demoAux seq i (n+1) =
        (Act.ledOn (seq.getD i 0) :: Act.delayMs GAME_SPEED_MS ::
         Act.ledOff (seq.getD i 0) :: Act.delayMs GAME_SPEED_MS :: []) ++
        demoAux seq (i+1) n := rfl
    rw [hsplit]
    constructor
    · exact safe_append _ _ (demoPulse_take (seq.getD i 0))
        (demoPulse_total (seq.getD i 0)) (ih (i+1)).1
    · rw [applyActs_append, demoPulse_total]
      exact (ih (i+1)).2

/-- The verification loop keeps at most one LED on at every point and ends
with all LEDs off, whatever the outcome. -/
theorem roundLoop_evs_safe (btn : Nat → Nat → Bool) :
    ∀ (exp : List Nat) (t fuel : Nat) (b : Bool) (t2 : Nat) (evs : List Act),
      roundLoop btn exp t fuel = some (b, t2, evs) →
      (∀ j, activeCount (applyActs allOff (evs.take j)) ≤ 1) ∧
      applyActs allOff evs = allOff := by
  intro exp
  induction exp with
  | nil =>
    intro t fuel b t2 evs h
    simp only [roundLoop, Option.some.injEq, Prod.mk.injEq] at h
    rw [← h.2.2]
    exact ⟨fun j => by rw [List.take_nil]; decide, rfl⟩
  | cons e rest ih =>
    intro t fuel b t2 evs h
    cases hp : pressOne btn t fuel with
    | none =>
      have hpos : positionLoop btn e t fuel = none := by
        rw [positionLoop_eq_pressOne, hp]; rfl
      simp only [roundLoop, hpos] at h
      exact Option.noConfusion h
    | some p =>
      obtain ⟨i, t1⟩ := p
      have hpos : positionLoop btn e t fuel =
          some (decide (i = e), t1, pulseActs i) := by
        rw [positionLoop_eq_pressOne, hp]; rfl
      by_cases hie : i = e
      · rw [show decide (i = e) = true by simp [hie]] at hpos
        simp only [roundLoop, hpos] at h
        rw [if_pos trivial] at h
        cases hr : roundLoop btn rest t1 fuel with
        | none => rw [hr] at h; exact Option.noConfusion h
        | some r =>
          obtain ⟨ok2, t3, evs2⟩ := r
          rw [hr] at h
          simp only [Option.some.injEq, Prod.mk.injEq] at h
          rw [← h.2.2]
          obtain ⟨ih1, ih2⟩ := ih t1 fuel ok2 t3 evs2 hr
          constructor
          · exact safe_append _ _ (pulseActs_take i) (pulseActs_total i) ih1
          · rw [applyActs_append, pulseActs_total]
            exact ih2
      · rw [show decide (i = e) = false by simpa using hie] at hpos
        simp only [roundLoop, hpos] at h
        rw [if_neg Bool.false_ne_true] at h
        simp only [Option.some.injEq, Prod.mk.injEq] at h
        rw [← h.2.2]
        exact ⟨pulseActs_take i, pulseActs_total i⟩

/-- The inner win-animation loop keeps at most one LED on and ends all-off. -/
theorem runInnerAux_safe : ∀ (k i : Nat),
    (∀ j, activeCount (applyActs allOff ((runInnerAux i k).take j)) ≤ 1) ∧
    applyActs allOff (runInnerAux i k) = allOff := by
  intro k
  induction k with
  | zero =>
    intro i
    exact ⟨fun j => by rw [show runInnerAux i 0 = [] from rfl, List.take_nil]; decide, rfl⟩
  | succ n ih =>
    intro i
    have hsplit : runInnerAux i (n+1) =
        (Act.ledOn i :: Act.delayMs WIN_ANIMATION_MS :: Act.ledOff i :: []) ++
        runInnerAux (i+1) n := rfl
    rw [hsplit]
    constructor
    · exact safe_append _ _ (winPulse_take i) (winPulse_total i) (ih (i+1)).1
    · rw [applyActs_append, winPulse_total]
      exact (ih (i+1)).2

/-- The whole win animation keeps at most one LED on and ends all-off. -/
theorem runOuterAux_safe : ∀ (j : Nat),
    (∀ k, activeCount (applyActs allOff ((runOuterAux j).take k)) ≤ 1) ∧
    applyActs allOff (runOuterAux j) = allOff := by
  intro j
  induction j with
  | zero => exact ⟨fun k => by rw [show runOuterAux 0 = [] from rfl, List.take_nil]; decide, rfl⟩
  | succ n ih =>
    rw [show runOuterAux (n+1) = runInnerAux 0 LED_COUNT ++ runOuterAux n from rfl]
    constructor
    · exact safe_append _ _ (runInnerAux_safe LED_COUNT 0).1
        (runInnerAux_safe LED_COUNT 0).2 ih.1
    · rw [applyActs_append, (runInnerAux_safe LED_COUNT 0).2]
      exact ih.2

/-- C6 counterexample: the claim that at most one output is ever active,
including the Lost feedback animation, is false — the `GAME_OVER` handler's
very first action toggles the mask of all four LEDs, so starting from the
all-off reset state all four outputs are active simultaneously. -/
theorem C6_counterexample :
    applyActs allOff (ToggleLEDsForGameOver.take 1) = [true, true, true, true] ∧
    ¬ activeCount (applyActs allOff (ToggleLEDsForGameOver.take 1)) ≤ 1 := by
  decide

/-- C6 amended: during the `SIMON_SAYS` and `PLAYER_SAYS` handlers and the
`WIN` feedback animation, starting from all outputs off, at most one output
is active after every prefix of the emitted actions, and each handler leaves
all outputs off; the `GAME_OVER` (Lost) animation is the exception — it
deliberately drives all four outputs together. -/
theorem C6_single_led (e : Env) (fuel t : Nat) (m m2 : Machine) (t2 : Nat)
    (evs : List Act)
    (hst : m.state = GameState.SIMON_SAYS ∨ m.state = GameState.PLAYER_SAYS ∨
      m.state = GameState.WIN)
    (h : step e fuel t m = some (m2, t2, evs)) :
    (∀ j, activeCount (applyActs allOff (evs.take j)) ≤ 1) ∧
    applyActs allOff evs = allOff := by
  rcases hst with hs | hs | hs
  · simp only [step, hs] at h
    cases hsim : simonStep fuel m with
    | none => rw [hsim] at h; exact Option.noConfusion h
    | some p =>
      obtain ⟨m3, evs3⟩ := p
      rw [hsim] at h
      simp only [Option.map_some', Option.some.injEq, Prod.mk.injEq] at h
      obtain ⟨v, g2, _, _, hevs3⟩ := simonStep_some fuel m m3 evs3 hsim
      rw [← h.2.2, hevs3]
      exact demoAux_safe _ (m.current_level + 1) 0
  · simp only [step, hs] at h
    obtain ⟨b, hr, _⟩ := playerStep_cases e.btn t fuel m m2 t2 evs h
    exact roundLoop_evs_safe e.btn _ t fuel b t2 evs hr
  · simp only [step, hs] at h
    simp only [Option.some.injEq, Prod.mk.injEq] at h
    rw [← h.2.2]
    exact runOuterAux_safe 4

/-- Witness for the amended C6 at the `WIN` handler of a concrete machine:
after two actions of the win animation at most one LED is on, and the
animation ends all-off. -/
theorem C6_single_led_witness :
    activeCount (applyActs allOff (RunningLightForWin.take 2)) ≤ 1 ∧
    applyActs allOff RunningLightForWin = allOff :=
  ⟨(C6_single_led ⟨fun _ => false, fun _ => 0, fun _ _ => false⟩ 0 0
      ⟨GameState.WIN, 2, [0, 1, 2, 3, 0], ⟨[], 0⟩⟩
      ⟨GameState.IDLE, 2, [0, 1, 2, 3, 0], ⟨[], 0⟩⟩ 0 RunningLightForWin
      (Or.inr (Or.inr rfl)) (by decide)).1 2,
   (C6_single_led ⟨fun _ => false, fun _ => 0, fun _ _ => false⟩ 0 0
      ⟨GameState.WIN, 2, [0, 1, 2, 3, 0], ⟨[], 0⟩⟩
      ⟨GameState.IDLE, 2, [0, 1, 2, 3, 0], ⟨[], 0⟩⟩ 0 RunningLightForWin
      (Or.inr (Or.inr rfl)) (by decide)).2⟩

/-! ## Bounds invariant -/

/-- Reading the just-written position gives the written value. -/
theorem getD_set_self (l : List Nat) (n v : Nat) (h : n < l.length) :
    (l.set n v).getD n 0 = v := by
  simp [List.getD_eq_getElem?_getD, List.getElem?_set_self, h]

/-- Reading any other position is unaffected by a write. -/
theorem getD_set_ne (l : List Nat) (n i v : Nat) (h : n ≠ i) :
    (l.set n v).getD i 0 = l.getD i 0 := by
  simp [List.getD_eq_getElem?_getD, List.getElem?_set_ne h]

/-- The initial program state satisfies the bounds invariant. -/
theorem Inv_init : Inv initMachine := by
  refine ⟨by simp [initMachine, MAX_LEVEL], by simp [initMachine, MAX_LEVEL], ?_, ?_⟩
  · intro hcon
    exact absurd hcon (by simp [initMachine])
  · intro hcon
    exact absurd hcon (by simp [initMachine])

/-- Every iteration of the main loop preserves the bounds invariant: in
particular the write `sequence[current_level]` happens only with
`current_level < MAX_LEVEL`, and all prefix entries stay below 4. -/
theorem Inv_step (e : Env) (fuel t : Nat) (m m2 : Machine) (t2 : Nat)
    (evs : List Act) (hinv : Inv m) (h : step e fuel t m = some (m2, t2, evs)) :
    Inv m2 := by
  obtain ⟨hlen, hlvl, hps, hss⟩ := hinv
  cases hs : m.state with
  | IDLE =>
    simp only [step, hs] at h
    by_cases hstart : e.start t
    · rw [if_pos hstart] at h
      simp only [Option.some.injEq, Prod.mk.injEq] at h
      rw [← h.1]
      refine ⟨hlen, by norm_num [MAX_LEVEL], ?_, ?_⟩
      · intro hcon
        exact absurd hcon (by simp)
      · intro _ i hi
        simp at hi
    · rw [if_neg hstart] at h
      simp only [Option.some.injEq, Prod.mk.injEq] at h
      rw [← h.1]
      exact ⟨hlen, hlvl, hps, hss⟩
  | SIMON_SAYS =>
    simp only [step, hs] at h
    cases hsim : simonStep fuel m with
    | none => rw [hsim] at h; exact Option.noConfusion h
    | some p =>
      obtain ⟨m3, evs3⟩ := p
      rw [hsim] at h
      simp only [Option.map_some', Option.some.injEq, Prod.mk.injEq] at h
      obtain ⟨v, g2, hd, hm3, _⟩ := simonStep_some fuel m m3 evs3 hsim
      have hv : v < 4 := distribNext_lt fuel m.gen v g2 hd
      rw [← h.1, hm3]
      refine ⟨by simpa using hlen, by simpa using hlvl, ?_, ?_⟩
      · intro _ i hi
        simp only at hi ⊢
        by_cases hie : i = m.current_level
        · rw [hie, getD_set_self m.sequence m.current_level v (by omega)]
          exact hv
        · rw [getD_set_ne m.sequence m.current_level i v (fun hx => hie hx.symm)]
          exact hss hs i (by omega)
      · intro hcon
        exact absurd hcon (by simp)
  | PLAYER_SAYS =>
    simp only [step, hs] at h
    obtain ⟨b, hr, hc⟩ := playerStep_cases e.btn t fuel m m2 t2 evs h
    rcases hc with ⟨_, _, hm2⟩ | ⟨_, hne, hm2⟩ | ⟨_, hm2⟩
    · rw [hm2]
      refine ⟨hlen, hlvl, ?_, ?_⟩
      · intro hcon
        exact absurd hcon (by simp)
      · intro hcon
        exact absurd hcon (by simp)
    · rw [hm2]
      refine ⟨by simpa using hlen, ?_, ?_, ?_⟩
      · show m.current_level + 1 < MAX_LEVEL
        have hne2 : m.current_level ≠ MAX_LEVEL - 1 := hne
        simp only [MAX_LEVEL] at hlvl hne2 ⊢
        omega
      · intro hcon
        exact absurd hcon (by simp)
      · intro _ i hi
        simp only at hi ⊢
        exact hps hs i (by omega)
    · rw [hm2]
      refine ⟨hlen, hlvl, ?_, ?_⟩
      · intro hcon
        exact absurd hcon (by simp)
      · intro hcon
        exact absurd hcon (by simp)
  | GAME_OVER =>
    simp only [step, hs] at h
    simp only [Option.some.injEq, Prod.mk.injEq] at h
    rw [← h.1]
    refine ⟨hlen, hlvl, ?_, ?_⟩
    · intro hcon
      exact absurd hcon (by simp)
    · intro hcon
      exact absurd hcon (by simp)
  | WIN =>
    simp only [step, hs] at h
    simp only [Option.some.injEq, Prod.mk.injEq] at h
    rw [← h.1]
    refine ⟨hlen, hlvl, ?_, ?_⟩
    · intro hcon
      exact absurd hcon (by simp)
    · intro hcon
      exact absurd hcon (by simp)

/-- All LED indices of a demonstration over in-range positions are valid. -/
theorem demoAux_ok (seq : List Nat) : ∀ (k i : Nat),
    (∀ j, i ≤ j → j < i + k → seq.getD j 0 < 4) →
    ∀ a ∈ demoAux seq i k, actLedOK a := by
  intro k
  induction k with
  | zero =>
    intro i _ a ha
    simp [demoAux] at ha
  | succ n ih =>
    intro i hrange a ha
    simp only [demoAux, List.mem_cons] at ha
    rcases ha with rfl | rfl | rfl | rfl | ha
    · exact hrange i (le_refl i) (by omega)
    · trivial
    · exact hrange i (le_refl i) (by omega)
    · trivial
    · exact ih (i+1) (fun j h1 h2 => hrange j (by omega) (by omega)) a ha

/-- All LED indices emitted by the verification loop are valid. -/
theorem roundLoop_evs_ok (btn : Nat → Nat → Bool) :
    ∀ (exp : List Nat) (t fuel : Nat) (b : Bool) (t2 : Nat) (evs : List Act),
      roundLoop btn exp t fuel = some (b, t2, evs) →
      ∀ a ∈ evs, actLedOK a := by
  intro exp
  induction exp with
  | nil =>
    intro t fuel b t2 evs h
    simp only [roundLoop, Option.some.injEq, Prod.mk.injEq] at h
    rw [← h.2.2]
    intro a ha
    simp at ha
  | cons e rest ih =>
    intro t fuel b t2 evs h
    cases hp : pressOne btn t fuel with
    | none =>
      have hpos : positionLoop btn e t fuel = none := by
        rw [positionLoop_eq_pressOne, hp]; rfl
      simp only [roundLoop, hpos] at h
      exact Option.noConfusion h
    | some p =>
      obtain ⟨i, t1⟩ := p
      obtain ⟨tp, _, _, _, _, hi4, _, _⟩ := pressOne_some btn fuel t i t1 hp
      have hpulse : ∀ a ∈ pulseActs i, actLedOK a := by
        intro a ha
        simp only [pulseActs, List.mem_cons] at ha
        rcases ha with rfl | rfl | rfl | rfl | rfl | ha
        · exact hi4
        · trivial
        · trivial
        · exact hi4
        · trivial
        · simp at ha
      have hpos : positionLoop btn e t fuel =
          some (decide (i = e), t1, pulseActs i) := by
        rw [positionLoop_eq_pressOne, hp]; rfl
      by_cases hie : i = e
      · rw [show decide (i = e) = true by simp [hie]] at hpos
        simp only [roundLoop, hpos] at h
        rw [if_pos trivial] at h
        cases hr : roundLoop btn rest t1 fuel with
        | none => rw [hr] at h; exact Option.noConfusion h
        | some r =>
          obtain ⟨ok2, t3, evs2⟩ := r
          rw [hr] at h
          simp only [Option.some.injEq, Prod.mk.injEq] at h
          rw [← h.2.2]
          intro a ha
          rcases List.mem_append.mp ha with ha1 | ha2
          · exact hpulse a ha1
          · exact ih t1 fuel ok2 t3 evs2 hr a ha2
      · rw [show decide (i = e) = false by simpa using hie] at hpos
        simp only [roundLoop, hpos] at h
        rw [if_neg Bool.false_ne_true] at h
        simp only [Option.some.injEq, Prod.mk.injEq] at h
        rw [← h.2.2]
        exact hpulse

/-- All actions of the loss animation are valid (only mask toggles). -/
theorem gameOver_ok : ∀ a ∈ ToggleLEDsForGameOver, actLedOK a := by
  intro a ha
  simp only [ToggleLEDsForGameOver, gameOverAux, List.mem_cons] at ha
  rcases ha with rfl | rfl | rfl | rfl | rfl | rfl | rfl | rfl | ha
  · trivial
  · trivial
  · trivial
  · trivial
  · trivial
  · trivial
  · trivial
  · trivial
  · simp at ha

/-- All LED indices of the inner win-animation loop over in-range start are
valid. -/
theorem runInnerAux_ok : ∀ (k i : Nat), i + k ≤ 4 →
    ∀ a ∈ runInnerAux i k, actLedOK a := by
  intro k
  induction k with
  | zero =>
    intro i _ a ha
    simp [runInnerAux] at ha
  | succ n ih =>
    intro i hik a ha
    simp only [runInnerAux, List.mem_cons] at ha
    rcases ha with rfl | rfl | rfl | ha
    · show i < LED_COUNT
      simp only [LED_COUNT]
      omega
    · trivial
    · show i < LED_COUNT
      simp only [LED_COUNT]
      omega
    · exact ih (i+1) (by omega) a ha

/-- All LED indices of the win animation are valid. -/
theorem runOuterAux_ok : ∀ (j : Nat), ∀ a ∈ runOuterAux j, actLedOK a := by
  intro j
  induction j with
  | zero =>
    intro a ha
    simp [runOuterAux] at ha
  | succ n ih =>
    intro a ha
    simp only [runOuterAux] at ha
    rcases List.mem_append.mp ha with ha1 | ha2
    · exact runInnerAux_ok LED_COUNT 0 (by simp [LED_COUNT]) a ha1
    · exact ih a ha2

/-- C10: every array access of the game loop is in bounds: (1) every
reachable machine satisfies the invariant — the sequence buffer keeps its
capacity `MAX_LEVEL`, the write index `current_level` stays below
`MAX_LEVEL`, and every already-generated prefix entry is below 4; (2) from a
reachable (invariant) state, `current_level` is incremented only when it is
strictly below `MAX_LEVEL - 1`; (3) the button scan returns only `-1` or an
index below `BUTTON_COUNT = 4`, so `led_pins[index]`/`button_pins[index]`
accesses guarded by `index >= 0` are in bounds; (4) every LED action any
handler emits from an invariant state addresses an index below
`LED_COUNT = 4`, so every `led_pins[sequence[i]]` read is in bounds. -/
theorem C10_memory_safety :
    (∀ m, Reachable m → Inv m) ∧
    (∀ (e : Env) (fuel t : Nat) (m m2 : Machine) (t2 : Nat) (evs : List Act),
      Inv m → m.state = GameState.PLAYER_SAYS →
      step e fuel t m = some (m2, t2, evs) →
      m2.current_level = m.current_level + 1 →
      m.current_level < MAX_LEVEL - 1) ∧
    (∀ btns : Nat → Bool, -1 ≤ GetPressedButtonIndex btns ∧
      GetPressedButtonIndex btns < 4) ∧
    (∀ (e : Env) (fuel t : Nat) (m m2 : Machine) (t2 : Nat) (evs : List Act),
      Inv m → step e fuel t m = some (m2, t2, evs) →
      ∀ a ∈ evs, actLedOK a) := by
  refine ⟨?_, ?_, GetPressedButtonIndex_range, ?_⟩
  · intro m hr
    induction hr with
    | init => exact Inv_init
    | step e fuel t hm hstep ih => exact Inv_step e fuel t _ _ _ _ ih hstep
  · intro e fuel t m m2 t2 evs hinv hst h hinc
    obtain ⟨_, hlvl, _, _⟩ := hinv
    simp only [step, hst] at h
    obtain ⟨b, hr, hc⟩ := playerStep_cases e.btn t fuel m m2 t2 evs h
    rcases hc with ⟨_, _, hm2⟩ | ⟨_, hne, hm2⟩ | ⟨_, hm2⟩
    · rw [hm2] at hinc
      simp at hinc
    · have hne2 : m.current_level ≠ MAX_LEVEL - 1 := hne
      simp only [MAX_LEVEL] at hlvl hne2 ⊢
      omega
    · rw [hm2] at hinc
      simp at hinc
  · intro e fuel t m m2 t2 evs hinv h a ha
    obtain ⟨hlen, hlvl, hps, hss⟩ := hinv
    cases hs : m.state with
    | IDLE =>
      simp only [step, hs] at h
      by_cases hstart : e.start t
      · rw [if_pos hstart] at h
        simp only [Option.some.injEq, Prod.mk.injEq] at h
        rw [← h.2.2] at ha
        simp at ha
      · rw [if_neg hstart] at h
        simp only [Option.some.injEq, Prod.mk.injEq] at h
        rw [← h.2.2] at ha
        simp at ha
    | SIMON_SAYS =>
      simp only [step, hs] at h
      cases hsim : simonStep fuel m with
      | none => rw [hsim] at h; exact Option.noConfusion h
      | some p =>
        obtain ⟨m3, evs3⟩ := p
        rw [hsim] at h
        simp only [Option.map_some', Option.some.injEq, Prod.mk.injEq] at h
        obtain ⟨v, g2, hd, _, hevs3⟩ := simonStep_some fuel m m3 evs3 hsim
        have hv : v < 4 := distribNext_lt fuel m.gen v g2 hd
        rw [← h.2.2, hevs3] at ha
        refine demoAux_ok _ (m.current_level + 1) 0 ?_ a ha
        intro j _ hj
        by_cases hje : j = m.current_level
        · rw [hje, getD_set_self m.sequence m.current_level v (by omega)]
          exact hv
        · rw [getD_set_ne m.sequence m.current_level j v (fun hx => hje hx.symm)]
          exact hss hs j (by omega)
    | PLAYER_SAYS =>
      simp only [step, hs] at h
      obtain ⟨b, hr, _⟩ := playerStep_cases e.btn t fuel m m2 t2 evs h
      exact roundLoop_evs_ok e.btn _ t fuel b t2 evs hr a ha
    | GAME_OVER =>
      simp only [step, hs] at h
      simp only [Option.some.injEq, Prod.mk.injEq] at h
      rw [← h.2.2] at ha
      exact gameOver_ok a ha
    | WIN =>
      simp only [step, hs] at h
      simp only [Option.some.injEq, Prod.mk.injEq] at h
      rw [← h.2.2] at ha
      exact runOuterAux_ok 4 a ha

/-- Witness for C10: the initial machine satisfies the invariant; a concrete
level-0 advance implies `0 < MAX_LEVEL - 1`; the scan on an idle port is in
range; a loss-animation action is a valid mask toggle. -/
theorem C10_memory_safety_witness :
    Inv initMachine ∧
    (0 : Nat) < MAX_LEVEL - 1 ∧
    (-1 ≤ GetPressedButtonIndex (fun _ => false) ∧
      GetPressedButtonIndex (fun _ => false) < 4) ∧
    actLedOK Act.toggleAll :=
  ⟨C10_memory_safety.1 initMachine Reachable.init,
   C10_memory_safety.2.1 ⟨fun _ => false, fun _ => 0, fun t i => t == 0 && i == 2⟩
     5 0 ⟨GameState.PLAYER_SAYS, 0, [2, 9, 9, 9, 9], ⟨[], 0⟩⟩
     ⟨GameState.SIMON_SAYS, 1, [2, 9, 9, 9, 9], ⟨[], 0⟩⟩ 2 (pulseActs 2)
     (by refine ⟨rfl, by norm_num [MAX_LEVEL], ?_, ?_⟩
         · intro _ i hi
           rw [Nat.le_zero] at hi
           subst hi
           decide
         · intro hcon
           exact absurd hcon (by decide))
     rfl (by decide) rfl,
   C10_memory_safety.2.2.1 (fun _ => false),
   C10_memory_safety.2.2.2 ⟨fun _ => false, fun _ => 0, fun _ _ => false⟩ 0 0
     ⟨GameState.GAME_OVER, 0, [2, 9, 9, 9, 9], ⟨[], 0⟩⟩
     ⟨GameState.IDLE, 0, [2, 9, 9, 9, 9], ⟨[], 0⟩⟩ 0 ToggleLEDsForGameOver
     (by refine ⟨rfl, by norm_num [MAX_LEVEL], ?_, ?_⟩
         · intro hcon
           exact absurd hcon (by decide)
         · intro hcon
           exact absurd hcon (by decide))
     (by decide) Act.toggleAll (by decide)⟩

end Simon
